import Mathlib

/-!
Shallow embedding of the real-time market-data synchronization engine of the
`bot` repository (WebSocketManager): order-book reconstruction, kline (candle)
aggregation, ticker merging, the public-message dispatcher, the data accessors
and the reconnection counter logic.

The repository contains three coexisting revisions of the WebSocketManager
class; each is embedded in its own namespace:
  * `Websocket` — `src/api/websocket.js` (the file required by `src/index.js`),
  * `Part005`   — the revision in `src/unnamed/part_005`,
  * `Part006`   — the revision in `src/unnamed/part_006`.

Modelling conventions (stated once here):
  * JS numbers are modelled as `ℚ`.  Exchange payload numeric fields arrive as
    decimal strings and are converted with `parseFloat`; a present field is a
    non-empty string (truthy, even the string "0"), so JS presence tests
    `if (data.x)` on payload fields are modelled as `Option.isSome`, and
    `parseFloat` of an already-numeric value is the identity.
  * `none` in a stored numeric `Option ℚ` field models a JS
    `undefined`/`null`/`NaN` value (e.g. `parseFloat(undefined) = NaN`).
    No claim distinguishes these three.
  * JS objects used as string-keyed maps are modelled as association lists
    (`List (String × α)`); the lazily created empty `{}` map is the empty list.
    Reading `obj[k]` for an object key `k` that is `undefined` uses the JS
    coercion of `undefined` to the property name "undefined".
  * `Array.prototype.sort` with the numeric comparators used in the source is
    modelled by `List.insertionSort` on the comparator's key; per the
    ECMAScript `SortCompare` rule a `NaN` comparator result counts as equality,
    and a key that is `undefined` is modelled by the default key `0`.  All
    claims constrain the relevant keys to be present, so ties never matter.
  * Exceptions thrown while handling a message are caught by the dispatcher;
    a code path that throws before mutating is modelled as returning the
    state unchanged, and one that throws after a mutation returns the
    partially mutated state.
-/

/-- One `(price, quantity)` entry of one order-book side
(`{ price, quantity }` objects built by `processOrderbookData`). -/
structure PriceLevel where
  price : ℚ
  quantity : ℚ
deriving DecidableEq, Repr

/-- The per-symbol order book stored in `marketData.orderbooks[symbol]`. -/
structure Orderbook where
  symbol : String
  timestamp : Option ℚ
  bids : List PriceLevel
  asks : List PriceLevel
deriving DecidableEq, Repr

/-- A stored candle bar as built by the kline handlers
(`{ timestamp, open, high, low, close, volume, turnover }`).
Fields are `Option ℚ`: `none` models `undefined`/`NaN`. -/
structure CandleBar where
  timestamp : Option ℚ
  openPrice : Option ℚ
  high : Option ℚ
  low : Option ℚ
  close : Option ℚ
  volume : Option ℚ
  turnover : Option ℚ
deriving DecidableEq, Repr

/-- A raw kline object from a message payload.  `start`,`openF`,… are the
ByBit v5 field names (`openF`,`closeF` stand for the JS property names `open`,
`close`, which are Lean keywords); `t`,`o`,`h`,`l`,`c`,`v`,`V`,`timestampF`
are the alternative field names consulted by `Part006.formatKline`. -/
structure RawKline where
  start : Option ℚ := none
  openF : Option ℚ := none
  high : Option ℚ := none
  low : Option ℚ := none
  close : Option ℚ := none
  volume : Option ℚ := none
  turnover : Option ℚ := none
  t : Option ℚ := none
  o : Option ℚ := none
  h : Option ℚ := none
  l : Option ℚ := none
  c : Option ℚ := none
  v : Option ℚ := none
  V : Option ℚ := none
  timestampF : Option ℚ := none
deriving DecidableEq, Repr

/-- The `message.data` object of an orderbook topic message:
`ts` plus the two sides `b` and `a` as raw `[price, quantity]` pairs.
A `none` side models an absent property. -/
structure ObData where
  ts : Option ℚ := none
  b : Option (List (ℚ × ℚ)) := none
  a : Option (List (ℚ × ℚ)) := none
deriving DecidableEq, Repr

/-- The `message.data` object of a ticker topic message (partial field set). -/
structure TickerData where
  lastPrice : Option ℚ := none
  highPrice24h : Option ℚ := none
  lowPrice24h : Option ℚ := none
  volume24h : Option ℚ := none
  turnover24h : Option ℚ := none
  price24hPcnt : Option ℚ := none
  bid1Price : Option ℚ := none
  ask1Price : Option ℚ := none
  bid1Size : Option ℚ := none
  ask1Size : Option ℚ := none
deriving DecidableEq, Repr

/-- The per-symbol ticker record stored in `marketData.tickers[symbol]`. -/
structure Ticker where
  symbol : String
  lastPrice : Option ℚ
  highPrice24h : Option ℚ
  lowPrice24h : Option ℚ
  volume24h : Option ℚ
  turnover24h : Option ℚ
  price24hPcnt : Option ℚ
  timestamp : ℚ
  bidPrice : Option ℚ
  askPrice : Option ℚ
  bidSize : Option ℚ
  askSize : Option ℚ
deriving DecidableEq, Repr

/-- Tagged payload variant of a public data frame (`message.data`). -/
inductive PayloadData where
  | kline (bars : List RawKline)
  | orderbook (d : ObData)
  | ticker (d : TickerData)
deriving DecidableEq, Repr

/-- A parsed public frame: `op`, `topic` (already split at the dots, `none`
models a missing `topic` property), `type`, `ts` and `data`. -/
structure PubMessage where
  op : Option String := none
  topic : Option (List String) := none
  type : Option String := none
  ts : Option ℚ := none
  data : Option PayloadData := none
deriving DecidableEq, Repr

/-- An inbound frame before JSON parsing: either unparsable
(`JSON.parse` throws) or a parsed message. -/
inductive Frame where
  | unparsable
  | parsed (m : PubMessage)
deriving DecidableEq, Repr

/-- The mutable `this.marketData` of a WebSocketManager instance. -/
structure MarketData where
  klines : List (String × List (String × List CandleBar)) := []
  orderbooks : List (String × Orderbook) := []
  tickers : List (String × Ticker) := []
deriving DecidableEq, Repr

/-- Lookup in a JS object modelled as an association list. -/
def lookupA {α : Type} (k : String) : List (String × α) → Option α
  | [] => none
  | e :: es => if e.1 = k then some e.2 else lookupA k es

/-- Assignment `obj[k] = v` on a JS object modelled as an association list:
overwrite the first binding of `k`, or append a new one. -/
def upsertA {α : Type} (k : String) (v : α) : List (String × α) → List (String × α)
  | [] => [(k, v)]
  | e :: es => if e.1 = k then (k, v) :: es else e :: upsertA k v es

/-- JS truthiness chain `x || d` for a payload numeric value
(`undefined` and `0` are falsy). -/
def orD (x : Option ℚ) (d : ℚ) : ℚ :=
  match x with
  | some q => if q = 0 then d else q
  | none => d

/-- Bid comparator `(a, b) => b.price - a.price` (descending prices). -/
def bidGe (x y : PriceLevel) : Prop := y.price ≤ x.price

/-- Ask comparator `(a, b) => a.price - b.price` (ascending prices). -/
def askLe (x y : PriceLevel) : Prop := x.price ≤ y.price

instance : DecidableRel bidGe := fun x y => inferInstanceAs (Decidable (y.price ≤ x.price))
instance : DecidableRel askLe := fun x y => inferInstanceAs (Decidable (x.price ≤ y.price))

instance : IsTotal PriceLevel bidGe := ⟨fun a b => le_total b.price a.price⟩
instance : IsTrans PriceLevel bidGe := ⟨fun _ _ _ h1 h2 => le_trans h2 h1⟩
instance : IsTotal PriceLevel askLe := ⟨fun a b => le_total a.price b.price⟩
instance : IsTrans PriceLevel askLe := ⟨fun _ _ _ h1 h2 => le_trans h1 h2⟩

/-- `orderbook.bids.sort((a, b) => b.price - a.price)`. -/
def sortBids (s : List PriceLevel) : List PriceLevel := s.insertionSort bidGe

/-- `orderbook.asks.sort((a, b) => a.price - b.price)`. -/
def sortAsks (s : List PriceLevel) : List PriceLevel := s.insertionSort askLe

/-- The timestamp sort key of a stored bar (an `undefined` timestamp makes the
JS comparator return `NaN`, which `SortCompare` treats as equality; the
default key `0` only matters on bars with undefined timestamps, which every
claim excludes). -/
def tsKey (b : CandleBar) : ℚ := b.timestamp.getD 0

/-- Kline comparator `(a, b) => a.timestamp - b.timestamp`. -/
def tsLe (x y : CandleBar) : Prop := tsKey x ≤ tsKey y

instance : DecidableRel tsLe := fun x y => inferInstanceAs (Decidable (tsKey x ≤ tsKey y))
instance : IsTotal CandleBar tsLe := ⟨fun a b => le_total (tsKey a) (tsKey b)⟩
instance : IsTrans CandleBar tsLe := ⟨fun _ _ _ h1 h2 => le_trans h1 h2⟩

/-- `klines.sort((a, b) => a.timestamp - b.timestamp)`. -/
def sortTs (s : List CandleBar) : List CandleBar := s.insertionSort tsLe

/-- One `(price, quantity)` pair of a delta applied to one side, shared
verbatim by all three revisions:
if `quantity === 0` remove every level at `price` (`filter`), otherwise
overwrite the first existing level at `price` (`find` + assignment) or
`push` a new level at the end. -/
def upsertLevel (p q : ℚ) : List PriceLevel → List PriceLevel
  | [] => [⟨p, q⟩]
  | l :: ls => if l.price = p then ⟨p, q⟩ :: ls else l :: upsertLevel p q ls

/-- Apply one raw `[price, quantity]` pair of a delta to one side. -/
def applyLevel (s : List PriceLevel) (pq : ℚ × ℚ) : List PriceLevel :=
  if pq.2 = 0 then s.filter (fun l => decide (l.price ≠ pq.1)) else upsertLevel pq.1 pq.2 s

/-- The `for (const bid of data.b) { ... }` loop over all pairs of one side. -/
def applySide (s : List PriceLevel) (pairs : List (ℚ × ℚ)) : List PriceLevel :=
  pairs.foldl applyLevel s

/-- `findIndex` on timestamp followed by in-place assignment:
`some` returns the series with the first bar of equal timestamp replaced,
`none` means no bar matched. -/
def replaceBar (fk : CandleBar) : List CandleBar → Option (List CandleBar)
  | [] => none
  | b :: bs =>
    if b.timestamp = fk.timestamp then some (fk :: bs)
    else (replaceBar fk bs).map (fun r => b :: r)

/-- `arr.slice(-cap)` / `arr.splice(0, arr.length - cap)` applied when the
series exceeds `cap`: keep the last `cap` entries. -/
def truncSeries (cap : Nat) (s : List CandleBar) : List CandleBar :=
  if cap < s.length then s.drop (s.length - cap) else s

/-- Read `marketData.klines[symbol][timeframe]`, an empty array when any
level of the chain is missing (mirrors the lazy initialization). -/
def klinesOf (md : MarketData) (symbol timeframe : String) : List CandleBar :=
  match lookupA symbol md.klines with
  | none => []
  | some byTf => (lookupA timeframe byTf).getD []

/-- Write `marketData.klines[symbol][timeframe] = s` (creating the nested
objects as the source's initialization block does). -/
def setKlines (md : MarketData) (symbol timeframe : String) (s : List CandleBar) : MarketData :=
  let byTf := (lookupA symbol md.klines).getD []
  { md with klines := upsertA symbol (upsertA timeframe s byTf) md.klines }

namespace Websocket

/-- `src/api/websocket.js` lines 458-548, `processOrderbookData`.
A snapshot replaces the book verbatim (`data.b.map`/`data.a.map`, no sorting,
no filtering); a missing side makes `undefined.map` throw before the
assignment, leaving the state unchanged.  A delta without a prior book for
the symbol is warned about and dropped; otherwise each pair is applied and
the touched side re-sorted (`if (data.b && data.b.length > 0)`). -/
def processOrderbookData (md : MarketData) (m : PubMessage) : MarketData :=
  match m.topic, m.data with
  | some parts, some (.orderbook d) =>
    let symbol := (parts.get? 2).getD "undefined"
    if m.type = some "snapshot" then
      match d.b, d.a with
      | some bs, some as_ =>
        let book : Orderbook :=
          { symbol := symbol
            timestamp := d.ts
            bids := bs.map (fun pq => { price := pq.1, quantity := pq.2 })
            asks := as_.map (fun pq => { price := pq.1, quantity := pq.2 }) }
        { md with orderbooks := upsertA symbol book md.orderbooks }
      | _, _ => md
    else if m.type = some "delta" then
      match lookupA symbol md.orderbooks with
      | none => md
      | some ob =>
        let bids' := match d.b with
          | some bs => if bs.isEmpty then ob.bids else sortBids (applySide ob.bids bs)
          | none => ob.bids
        let asks' := match d.a with
          | some as_ => if as_.isEmpty then ob.asks else sortAsks (applySide ob.asks as_)
          | none => ob.asks
        let book : Orderbook := { ob with timestamp := d.ts, bids := bids', asks := asks' }
        { md with orderbooks := upsertA symbol book md.orderbooks }
    else md
  | _, _ => md

/-- The bar built by `processKlineData` from a raw payload kline
(`timestamp: kline.start`, the rest through `parseFloat`); shared by
`websocket.js` and `part_005`. -/
def formatKlineWs (k : RawKline) : CandleBar :=
  { timestamp := k.start
    openPrice := k.openF
    high := k.high
    low := k.low
    close := k.close
    volume := k.volume
    turnover := k.turnover }

/-- `src/api/websocket.js` lines 379-453, `processKlineData`.
The nested storage is initialized first; a delta takes `data[0]` (throwing on
an empty array after the initialization), overwrites the bar with the same
timestamp in place or pushes and re-sorts; a snapshot replaces the series by
the mapped payload; finally the series is truncated to the last
`maxKlines = 500` bars. -/
def processKlineData (md : MarketData) (m : PubMessage) : MarketData :=
  match m.topic, m.data with
  | some parts, some (.kline bars) =>
    let timeframe := (parts.get? 1).getD "undefined"
    let symbol := (parts.get? 2).getD "undefined"
    let series0 := klinesOf md symbol timeframe
    if m.type = some "delta" then
      match bars.head? with
      | none => setKlines md symbol timeframe series0
      | some k =>
        let fk := formatKlineWs k
        let series1 := match replaceBar fk series0 with
          | some r => r
          | none => sortTs (series0 ++ [fk])
        setKlines md symbol timeframe (truncSeries 500 series1)
    else if m.type = some "snapshot" then
      setKlines md symbol timeframe (truncSeries 500 (bars.map formatKlineWs))
    else
      setKlines md symbol timeframe (truncSeries 500 series0)
  | _, _ => md

/-- `src/api/websocket.js` lines 553-580, `processTickerData`: the stored
ticker record is rebuilt wholesale from the update (`parseFloat` of each
field, `NaN` — modelled `none` — when absent), with `timestamp: Date.now()`. -/
def processTickerData (md : MarketData) (m : PubMessage) (now : ℚ) : MarketData :=
  match m.topic, m.data with
  | some parts, some (.ticker d) =>
    let symbol := (parts.get? 1).getD "undefined"
    let t : Ticker :=
      { symbol := symbol
        lastPrice := d.lastPrice
        highPrice24h := d.highPrice24h
        lowPrice24h := d.lowPrice24h
        volume24h := d.volume24h
        turnover24h := d.turnover24h
        price24hPcnt := d.price24hPcnt
        timestamp := now
        bidPrice := none
        askPrice := none
        bidSize := none
        askSize := none }
    { md with tickers := upsertA symbol t md.tickers }
  | _, _ => md

/-- `src/api/websocket.js` lines 290-330, `handlePublicMessage`: the whole
body runs inside `try { ... } catch { log }`; `pong` and `subscribe`
acknowledgments are discarded, data frames need both `message.topic` and
`message.data` and are routed on the first topic segment, unknown classes are
dropped. -/
def handlePublicMessage (md : MarketData) (f : Frame) (now : ℚ) : MarketData :=
  match f with
  | .unparsable => md
  | .parsed m =>
    if m.op = some "pong" then md
    else if m.op = some "subscribe" then md
    else
      match m.topic, m.data with
      | some parts, some _ =>
        match parts.head? with
        | some "kline" => processKlineData md m
        | some "orderbook" => processOrderbookData md m
        | some "tickers" => processTickerData md m now
        | _ => md
      | _, _ => md

/-- `src/api/websocket.js` lines 606-612, `getKlines`. -/
def getKlines (md : MarketData) (symbol timeframe : String) : List CandleBar :=
  match lookupA symbol md.klines with
  | none => []
  | some byTf =>
    match lookupA timeframe byTf with
    | none => []
    | some ks => ks

/-- `src/api/websocket.js` lines 617-623, `getOrderbook` (`none` = `null`). -/
def getOrderbook (md : MarketData) (symbol : String) : Option Orderbook :=
  lookupA symbol md.orderbooks

/-- `src/api/websocket.js` lines 628-634, `getTicker` (`none` = `null`). -/
def getTicker (md : MarketData) (symbol : String) : Option Ticker :=
  lookupA symbol md.tickers

/-- The reconnection bookkeeping of the manager for one connection:
`reconnectAttempts['public']`, with the constructor constants
`maxReconnectAttempts = 10` and `reconnectDelay = 5000`. -/
structure ReconnectState where
  reconnectAttempts : Nat
  maxReconnectAttempts : Nat
  reconnectDelay : ℚ
deriving DecidableEq, Repr

/-- `src/api/websocket.js` lines 161-178, `reconnectPublicWebSocket`:
at or above the cap nothing is scheduled (only an error log); otherwise the
attempt counter is incremented and a reconnect is scheduled after
`reconnectDelay * 1.5 ^ attempts`.  Returns the new state and the scheduled
delay (`none` = no reconnect scheduled). -/
def reconnectPublicWebSocket (s : ReconnectState) : ReconnectState × Option ℚ :=
  if s.maxReconnectAttempts ≤ s.reconnectAttempts then (s, none)
  else
    let a := s.reconnectAttempts + 1
    ({ s with reconnectAttempts := a }, some (s.reconnectDelay * (3 / 2 : ℚ) ^ a))

/-- `src/api/websocket.js` line 43 inside `connectPublicWebSocket`:
every dial — initial or scheduled reconnect — unconditionally resets
`this.reconnectAttempts['public'] = 0` before the socket opens or any
subscription happens. -/
def connectPublicWebSocket (s : ReconnectState) : ReconnectState :=
  { s with reconnectAttempts := 0 }

/-- One failed reconnect cycle: the previous socket's `close` handler runs
`reconnectPublicWebSocket` (scheduling a dial), the timer fires and
`connectPublicWebSocket` dials (resetting the counter), and the dial fails,
closing again. -/
def failedReconnectCycle (s : ReconnectState) : ReconnectState :=
  connectPublicWebSocket (reconnectPublicWebSocket s).1

/-- The state after the initial successful connect: counter 0, cap 10,
base delay 5000 ms. -/
def initialReconnectState : ReconnectState :=
  { reconnectAttempts := 0, maxReconnectAttempts := 10, reconnectDelay := 5000 }

end Websocket

/-- JS truthiness of a payload numeric value (`undefined` and `0` falsy). -/
def truthyB (x : Option ℚ) : Bool :=
  match x with
  | some q => decide (q ≠ 0)
  | none => false

/-- Field-wise merge `if (data.x) existing.x = parseFloat(data.x)`. -/
def mergeField (new old : Option ℚ) : Option ℚ :=
  match new with
  | some q => some q
  | none => old

namespace Part005

/-- The bar validation of `src/unnamed/part_005` (lines 957 and 990):
`kline && kline.start && kline.open !== undefined && ... volume !== undefined`
(`kline.start` is a truthiness test on a number, the OHLCV fields are
presence tests; `turnover` is not validated). -/
def validKline (k : RawKline) : Bool :=
  truthyB k.start && k.openF.isSome && k.high.isSome && k.low.isSome &&
    k.close.isSome && k.volume.isSome

/-- `src/unnamed/part_005` lines 920-1020, `processKlineData`.
Missing `topic`/`data` or a short topic return untouched; the nested storage
is then initialized; a non-empty delta validates `data[0]` (returning early —
before the cap — when invalid), then overwrites in place or pushes and
re-sorts; a snapshot replaces the series by the validated (filtered) bars;
finally the series is truncated to the last `maxKlines = 500`. -/
def processKlineData (md : MarketData) (m : PubMessage) : MarketData :=
  match m.topic, m.data with
  | some parts, some (.kline bars) =>
    if parts.length < 3 then md
    else
      let timeframe := (parts.get? 1).getD "undefined"
      let symbol := (parts.get? 2).getD "undefined"
      let series0 := klinesOf md symbol timeframe
      let series1 : Option (List CandleBar) :=
        if m.type = some "delta" ∧ bars ≠ [] then
          match bars.head? with
          | some k =>
            if validKline k then
              let fk := Websocket.formatKlineWs k
              match replaceBar fk series0 with
              | some r => some r
              | none => some (sortTs (series0 ++ [fk]))
            else none
          | none => none
        else if m.type = some "snapshot" then
          some ((bars.filter validKline).map Websocket.formatKlineWs)
        else some series0
      match series1 with
      | none => setKlines md symbol timeframe series0
      | some s => setKlines md symbol timeframe (truncSeries 500 s)
  | _, _ => md

/-- `src/unnamed/part_005` lines 1137-1202, `processTickerData`.
`lastPrice` is derived by precedence — explicit `lastPrice`, midpoint of
`bid1Price`/`ask1Price`, single `bid1Price`, single `ask1Price` — and an
update with no usable price field returns before any state is touched.
The stored record is rebuilt with `0` fallbacks for absent 24h fields and
`null` for absent bid/ask fields. -/
def processTickerData (md : MarketData) (m : PubMessage) (now : ℚ) : MarketData :=
  match m.topic, m.data with
  | some parts, some (.ticker d) =>
    if parts.length < 2 then md
    else
      let symbol := (parts.get? 1).getD "undefined"
      let lp : Option ℚ :=
        match d.lastPrice with
        | some p => some p
        | none =>
          match d.bid1Price, d.ask1Price with
          | some b, some a => some ((b + a) / 2)
          | some b, none => some b
          | none, some a => some a
          | none, none => none
      match lp with
      | none => md
      | some p =>
        let t : Ticker :=
          { symbol := symbol
            lastPrice := some p
            highPrice24h := some (d.highPrice24h.getD 0)
            lowPrice24h := some (d.lowPrice24h.getD 0)
            volume24h := some (d.volume24h.getD 0)
            turnover24h := some (d.turnover24h.getD 0)
            price24hPcnt := some (d.price24hPcnt.getD 0)
            timestamp := now
            bidPrice := d.bid1Price
            askPrice := d.ask1Price
            bidSize := d.bid1Size
            askSize := d.ask1Size }
        { md with tickers := upsertA symbol t md.tickers }
  | _, _ => md

end Part005

namespace Part006

/-- `src/unnamed/part_006` lines 490-626, `processOrderbookData`.
A delta with no stored book first creates an empty book for the symbol
(first-write seed) and then applies its pairs; a snapshot replaces the book
verbatim.  The book timestamp is `message.ts || data.ts || Date.now()`. -/
def processOrderbookData (md : MarketData) (m : PubMessage) (now : ℚ) : MarketData :=
  match m.topic, m.data with
  | some parts, some (.orderbook d) =>
    if parts.length < 3 then md
    else
      let symbol := (parts.get? 2).getD "undefined"
      let ts1 : Option ℚ := some (orD m.ts (orD d.ts now))
      if m.type = some "delta" then
        let ob0 : Orderbook := (lookupA symbol md.orderbooks).getD
          { symbol := symbol, timestamp := ts1, bids := [], asks := [] }
        let bids' := match d.b with
          | some bs => sortBids (applySide ob0.bids bs)
          | none => ob0.bids
        let asks' := match d.a with
          | some as_ => sortAsks (applySide ob0.asks as_)
          | none => ob0.asks
        let book : Orderbook := { ob0 with timestamp := ts1, bids := bids', asks := asks' }
        { md with orderbooks := upsertA symbol book md.orderbooks }
      else if m.type = some "snapshot" then
        match d.b, d.a with
        | some bs, some as_ =>
          let book : Orderbook :=
            { symbol := symbol
              timestamp := ts1
              bids := bs.map (fun pq => { price := pq.1, quantity := pq.2 })
              asks := as_.map (fun pq => { price := pq.1, quantity := pq.2 }) }
          { md with orderbooks := upsertA symbol book md.orderbooks }
        | _, _ => md
      else md
  | _, _ => md

/-- `src/unnamed/part_006` lines 306-327, `formatKline`.
With a `start` field present, the ByBit shape is used (only `turnover` gets
an `|| 0` fallback); otherwise every field falls back through the
alternative names to a zero default (`t || timestamp || Date.now()`,
`o || open || 0`, …). -/
def formatKline (now : ℚ) (k : RawKline) : CandleBar :=
  if k.start.isSome then
    { timestamp := k.start
      openPrice := k.openF
      high := k.high
      low := k.low
      close := k.close
      volume := k.volume
      turnover := some (orD k.turnover 0) }
  else
    { timestamp := some (orD k.t (orD k.timestampF now))
      openPrice := some (orD k.o (orD k.openF 0))
      high := some (orD k.h (orD k.high 0))
      low := some (orD k.l (orD k.low 0))
      close := some (orD k.c (orD k.close 0))
      volume := some (orD k.v (orD k.volume 0))
      turnover := some (orD k.V (orD k.turnover 0)) }

/-- `src/unnamed/part_006` lines 239-301, `processKlineData`.
Every bar of the payload (snapshot or delta alike — the type is never
consulted) is formatted and upserted by timestamp (in-place overwrite of the
first match, else push); the series is then always re-sorted ascending and
truncated to the last `100` bars. -/
def processKlineData (md : MarketData) (m : PubMessage) (now : ℚ) : MarketData :=
  match m.topic, m.data with
  | some parts, some (.kline bars) =>
    let timeframe := (parts.get? 1).getD "undefined"
    let symbol := (parts.get? 2).getD "undefined"
    let series0 := klinesOf md symbol timeframe
    let series1 := bars.foldl
      (fun s k =>
        let fk := formatKline now k
        match replaceBar fk s with
        | some r => r
        | none => s ++ [fk]) series0
    setKlines md symbol timeframe (truncSeries 100 (sortTs series1))
  | _, _ => md

/-- The default record created by `processTickerData` for a symbol with no
prior state (`src/unnamed/part_006` lines 655-668). -/
def defaultTicker (symbol : String) (now : ℚ) : Ticker :=
  { symbol := symbol
    lastPrice := some 0
    highPrice24h := some 0
    lowPrice24h := some 0
    volume24h := some 0
    turnover24h := some 0
    price24hPcnt := some 0
    timestamp := now
    bidPrice := none
    askPrice := none
    bidSize := none
    askSize := none }

/-- `src/unnamed/part_006` lines 632-710, `processTickerData` (the merging
revision).  The existing record (or a fresh default) is upgraded field by
field; `lastPrice` is set from an explicit `lastPrice`, else the midpoint
when both `bid1Price` and `ask1Price` are present, else a single present
side but only while the stored `lastPrice` is still `0`; otherwise it keeps
its previous value.  An update with no price field is still merged. -/
def processTickerData (md : MarketData) (m : PubMessage) (now : ℚ) : MarketData :=
  match m.topic, m.data with
  | some parts, some (.ticker d) =>
    if parts.length < 2 then md
    else
      let symbol := (parts.get? 1).getD "undefined"
      let ex0 : Ticker := (lookupA symbol md.tickers).getD (defaultTicker symbol now)
      let lp : Option ℚ :=
        match d.lastPrice with
        | some p => some p
        | none =>
          match d.bid1Price, d.ask1Price with
          | some b, some a => some ((b + a) / 2)
          | some b, none => if ex0.lastPrice = some 0 then some b else ex0.lastPrice
          | none, some a => if ex0.lastPrice = some 0 then some a else ex0.lastPrice
          | none, none => ex0.lastPrice
      let t : Ticker :=
        { symbol := ex0.symbol
          lastPrice := lp
          highPrice24h := mergeField d.highPrice24h ex0.highPrice24h
          lowPrice24h := mergeField d.lowPrice24h ex0.lowPrice24h
          volume24h := mergeField d.volume24h ex0.volume24h
          turnover24h := mergeField d.turnover24h ex0.turnover24h
          price24hPcnt := mergeField d.price24hPcnt ex0.price24hPcnt
          timestamp := now
          bidPrice := mergeField d.bid1Price ex0.bidPrice
          askPrice := mergeField d.ask1Price ex0.askPrice
          bidSize := mergeField d.bid1Size ex0.bidSize
          askSize := mergeField d.ask1Size ex0.askSize }
      { md with tickers := upsertA symbol t md.tickers }
  | _, _ => md

end Part006

/-! ### Generic lemmas about the association-list operations -/

theorem lookupA_upsertA_self {α : Type} (k : String) (v : α) (l : List (String × α)) :
    lookupA k (upsertA k v l) = some v := by
  induction l with
  | nil => simp [upsertA, lookupA]
  | cons e es ih =>
    by_cases h : e.1 = k <;> simp [upsertA, lookupA, h, ih]

theorem lookupA_upsertA_ne {α : Type} (k k' : String) (v : α) (l : List (String × α))
    (h : k' ≠ k) : lookupA k' (upsertA k v l) = lookupA k' l := by
  induction l with
  | nil => simp [upsertA, lookupA, Ne.symm h]
  | cons e es ih =>
    by_cases he : e.1 = k
    · simp [upsertA, lookupA, he, Ne.symm h]
    · simp [upsertA, lookupA, he, ih]

theorem mem_upsertA {α : Type} {k : String} {v : α} {l : List (String × α)}
    {p : String × α} (hp : p ∈ upsertA k v l) : p = (k, v) ∨ p ∈ l := by
  induction l with
  | nil => simpa [upsertA] using hp
  | cons e es ih =>
    by_cases he : e.1 = k
    · simp only [upsertA, if_pos he, List.mem_cons] at hp
      rcases hp with h | h
      · exact Or.inl h
      · exact Or.inr (List.mem_cons_of_mem _ h)
    · simp only [upsertA, if_neg he, List.mem_cons] at hp
      rcases hp with h | h
      · exact Or.inr (h ▸ List.mem_cons_self _ _)
      · rcases ih h with h' | h'
        · exact Or.inl h'
        · exact Or.inr (List.mem_cons_of_mem _ h')

theorem lookupA_mem {α : Type} {k : String} {l : List (String × α)} {v : α}
    (h : lookupA k l = some v) : (k, v) ∈ l := by
  induction l with
  | nil => simp [lookupA] at h
  | cons e es ih =>
    rcases e with ⟨a, b⟩
    by_cases he : a = k
    · simp only [lookupA, if_pos he, Option.some.injEq] at h
      subst he
      subst h
      exact List.mem_cons_self _ _
    · simp only [lookupA, if_neg he] at h
      exact List.mem_cons_of_mem _ (ih h)

/-! ### Order relations used by the book sides -/

/-- Strictly descending adjacent prices (raw pairs). -/
def pairDesc (x y : ℚ × ℚ) : Prop := y.1 < x.1

/-- Strictly ascending adjacent prices (raw pairs). -/
def pairAsc (x y : ℚ × ℚ) : Prop := x.1 < y.1

/-- Strictly descending adjacent prices (stored levels). -/
def levelDesc (x y : PriceLevel) : Prop := y.price < x.price

/-- Strictly ascending adjacent prices (stored levels). -/
def levelAsc (x y : PriceLevel) : Prop := x.price < y.price

instance : DecidableRel pairDesc := fun x y => inferInstanceAs (Decidable (y.1 < x.1))
instance : DecidableRel pairAsc := fun x y => inferInstanceAs (Decidable (x.1 < y.1))
instance : DecidableRel levelDesc := fun x y => inferInstanceAs (Decidable (y.price < x.price))
instance : DecidableRel levelAsc := fun x y => inferInstanceAs (Decidable (x.price < y.price))
instance : IsTrans (ℚ × ℚ) pairDesc := ⟨fun _ _ _ h1 h2 => lt_trans h2 h1⟩
instance : IsTrans (ℚ × ℚ) pairAsc := ⟨fun _ _ _ h1 h2 => lt_trans h1 h2⟩
instance : IsTrans PriceLevel levelDesc := ⟨fun _ _ _ h1 h2 => lt_trans h2 h1⟩
instance : IsTrans PriceLevel levelAsc := ⟨fun _ _ _ h1 h2 => lt_trans h1 h2⟩

/-- A well-formed descending side: no duplicate price, strictly decreasing in
iteration order, and no level with a non-positive quantity. -/
def goodSideDesc (s : List PriceLevel) : Prop :=
  (s.map PriceLevel.price).Nodup ∧ s.Pairwise levelDesc ∧ ∀ x ∈ s, 0 < x.quantity

/-- A well-formed ascending side. -/
def goodSideAsc (s : List PriceLevel) : Prop :=
  (s.map PriceLevel.price).Nodup ∧ s.Pairwise levelAsc ∧ ∀ x ∈ s, 0 < x.quantity

/-- The §3 `OrderBookState` invariant for one stored book. -/
def goodBook (ob : Orderbook) : Prop := goodSideDesc ob.bids ∧ goodSideAsc ob.asks

/-- Every stored book satisfies the invariant. -/
def goodState (md : MarketData) : Prop := ∀ p ∈ md.orderbooks, goodBook p.2

instance : DecidablePred goodSideDesc := fun s => by unfold goodSideDesc; infer_instance
instance : DecidablePred goodSideAsc := fun s => by unfold goodSideAsc; infer_instance
instance : DecidablePred goodBook := fun ob => by unfold goodBook; infer_instance
instance : DecidablePred goodState := fun md => by unfold goodState; infer_instance

/-- A well-formed snapshot payload side, descending (bids). -/
def goodPairsDesc (bs : List (ℚ × ℚ)) : Prop := bs.Pairwise pairDesc ∧ ∀ pq ∈ bs, 0 < pq.2

/-- A well-formed snapshot payload side, ascending (asks). -/
def goodPairsAsc (bs : List (ℚ × ℚ)) : Prop := bs.Pairwise pairAsc ∧ ∀ pq ∈ bs, 0 < pq.2

/-- Delta payload pairs carry no negative quantity. -/
def nonnegPairs (bs : List (ℚ × ℚ)) : Prop := ∀ pq ∈ bs, 0 ≤ pq.2

/-- Lift a side condition over an optional payload side. -/
def sideH (f : List (ℚ × ℚ) → Prop) : Option (List (ℚ × ℚ)) → Prop
  | some bs => f bs
  | none => True

/-- A well-formed order-book message: snapshot sides are sorted, duplicate
free and all-positive; delta quantities are nonnegative.  Messages of other
payload classes are unconstrained. -/
def goodObMsg (m : PubMessage) : Prop :=
  match m.data with
  | some (.orderbook d) =>
    (m.type = some "snapshot" → sideH goodPairsDesc d.b ∧ sideH goodPairsAsc d.a) ∧
    (m.type = some "delta" → sideH nonnegPairs d.b ∧ sideH nonnegPairs d.a)
  | _ => True

instance : DecidablePred goodPairsDesc := fun bs => by unfold goodPairsDesc; infer_instance
instance : DecidablePred goodPairsAsc := fun bs => by unfold goodPairsAsc; infer_instance
instance : DecidablePred nonnegPairs := fun bs => by unfold nonnegPairs; infer_instance
instance : DecidablePred (sideH goodPairsDesc) := fun o => by
  cases o with
  | none => exact inferInstanceAs (Decidable True)
  | some bs => exact inferInstanceAs (Decidable (goodPairsDesc bs))
instance : DecidablePred (sideH goodPairsAsc) := fun o => by
  cases o with
  | none => exact inferInstanceAs (Decidable True)
  | some bs => exact inferInstanceAs (Decidable (goodPairsAsc bs))
instance : DecidablePred (sideH nonnegPairs) := fun o => by
  cases o with
  | none => exact inferInstanceAs (Decidable True)
  | some bs => exact inferInstanceAs (Decidable (nonnegPairs bs))
/-! ### Lemmas about delta application to one side -/

/-- Both sides' levels after an upsert come from the upserted pair or the
original side. -/
theorem mem_upsertLevel {p q : ℚ} {s : List PriceLevel} {x : PriceLevel}
    (hx : x ∈ upsertLevel p q s) : x = ⟨p, q⟩ ∨ x ∈ s := by
  induction s with
  | nil => simpa [upsertLevel] using hx
  | cons l ls ih =>
    by_cases h : l.price = p
    · simp only [upsertLevel, if_pos h, List.mem_cons] at hx
      rcases hx with h' | h'
      · exact Or.inl h'
      · exact Or.inr (List.mem_cons_of_mem _ h')
    · simp only [upsertLevel, if_neg h, List.mem_cons] at hx
      rcases hx with h' | h'
      · exact Or.inr (h' ▸ List.mem_cons_self _ _)
      · rcases ih h' with h'' | h''
        · exact Or.inl h''
        · exact Or.inr (List.mem_cons_of_mem _ h'')

/-- The price multiset after an upsert: unchanged when the price was present
(first occurrence overwritten), else the new price is appended. -/
theorem mapPrice_upsertLevel (p q : ℚ) (s : List PriceLevel) :
    (upsertLevel p q s).map PriceLevel.price =
      if p ∈ s.map PriceLevel.price then s.map PriceLevel.price
      else s.map PriceLevel.price ++ [p] := by
  induction s with
  | nil => simp [upsertLevel]
  | cons l ls ih =>
    by_cases h : l.price = p
    · simp [upsertLevel, h]
    · by_cases h2 : p ∈ ls.map PriceLevel.price
      · simp [upsertLevel, h, ih, h2, Ne.symm h]
      · simp [upsertLevel, h, ih, h2, Ne.symm h]

/-- `LevelsOk s`: the side has pairwise distinct prices and positive
quantities (the part of the invariant preserved by raw delta application,
before re-sorting). -/
def LevelsOk (s : List PriceLevel) : Prop :=
  (s.map PriceLevel.price).Nodup ∧ ∀ x ∈ s, 0 < x.quantity

theorem levelsOk_applyLevel {s : List PriceLevel} {pq : ℚ × ℚ}
    (h : LevelsOk s) (hq : 0 ≤ pq.2) : LevelsOk (applyLevel s pq) := by
  rcases h with ⟨hnd, hpos⟩
  unfold applyLevel
  by_cases h0 : pq.2 = 0
  · rw [if_pos h0]
    refine ⟨hnd.sublist (List.Sublist.map _ (List.filter_sublist s)), ?_⟩
    intro x hx
    exact hpos x (List.mem_of_mem_filter hx)
  · rw [if_neg h0]
    constructor
    · rw [mapPrice_upsertLevel]
      by_cases hmem : pq.1 ∈ s.map PriceLevel.price
      · rwa [if_pos hmem]
      · rw [if_neg hmem]
        simp [List.nodup_append, hnd, hmem]
    · intro x hx
      rcases mem_upsertLevel hx with rfl | hx'
      · exact lt_of_le_of_ne hq (Ne.symm h0)
      · exact hpos x hx'

theorem levelsOk_applySide {s : List PriceLevel} {pairs : List (ℚ × ℚ)}
    (h : LevelsOk s) (hp : nonnegPairs pairs) : LevelsOk (applySide s pairs) := by
  induction pairs generalizing s with
  | nil => simpa [applySide] using h
  | cons pq rest ih =>
    have h1 : LevelsOk (applyLevel s pq) :=
      levelsOk_applyLevel h (hp pq (List.mem_cons_self _ _))
    have hp' : nonnegPairs rest := fun x hx => hp x (List.mem_cons_of_mem _ hx)
    simpa [applySide] using ih h1 hp'

/-! ### Lemmas about re-sorting one side -/

theorem pairwise_price_ne_of_nodup {s : List PriceLevel}
    (h : (s.map PriceLevel.price).Nodup) :
    s.Pairwise (fun x y : PriceLevel => x.price ≠ y.price) := by
  have h' : (s.map PriceLevel.price).Pairwise (fun a b : ℚ => a ≠ b) := h
  exact List.pairwise_map.mp h'

theorem nodup_of_pairwise_price_ne {s : List PriceLevel}
    (h : s.Pairwise (fun x y : PriceLevel => x.price ≠ y.price)) :
    (s.map PriceLevel.price).Nodup := by
  have h' : (s.map PriceLevel.price).Pairwise (fun a b : ℚ => a ≠ b) :=
    List.pairwise_map.mpr h
  exact h'

theorem goodSideDesc_sortBids {s : List PriceLevel} (h : LevelsOk s) :
    goodSideDesc (sortBids s) := by
  have hperm : List.Perm (sortBids s) s := List.perm_insertionSort bidGe s
  have hnd : ((sortBids s).map PriceLevel.price).Nodup :=
    ((hperm.map PriceLevel.price).nodup_iff).mpr h.1
  have hsorted : (sortBids s).Pairwise bidGe := List.sorted_insertionSort bidGe s
  refine ⟨hnd, ?_, ?_⟩
  · have hne := pairwise_price_ne_of_nodup hnd
    have hand := List.Pairwise.and hsorted hne
    exact hand.imp (fun hc => lt_of_le_of_ne hc.1 (Ne.symm hc.2))
  · intro x hx
    exact h.2 x (hperm.mem_iff.mp hx)

theorem goodSideAsc_sortAsks {s : List PriceLevel} (h : LevelsOk s) :
    goodSideAsc (sortAsks s) := by
  have hperm : List.Perm (sortAsks s) s := List.perm_insertionSort askLe s
  have hnd : ((sortAsks s).map PriceLevel.price).Nodup :=
    ((hperm.map PriceLevel.price).nodup_iff).mpr h.1
  have hsorted : (sortAsks s).Pairwise askLe := List.sorted_insertionSort askLe s
  refine ⟨hnd, ?_, ?_⟩
  · have hne := pairwise_price_ne_of_nodup hnd
    have hand := List.Pairwise.and hsorted hne
    exact hand.imp (fun hc => lt_of_le_of_ne hc.1 hc.2)
  · intro x hx
    exact h.2 x (hperm.mem_iff.mp hx)

/-- A well-formed raw snapshot side yields a well-formed stored bid side. -/
theorem goodSideDesc_ofPairs {bs : List (ℚ × ℚ)} (h : goodPairsDesc bs) :
    goodSideDesc (bs.map (fun pq => ({ price := pq.1, quantity := pq.2 } : PriceLevel))) := by
  have hpw : (bs.map (fun pq => ({ price := pq.1, quantity := pq.2 } : PriceLevel))).Pairwise
      levelDesc := List.pairwise_map.mpr h.1
  refine ⟨?_, hpw, ?_⟩
  · exact nodup_of_pairwise_price_ne (hpw.imp (fun hlt => ne_of_gt hlt))
  · intro x hx
    rcases List.mem_map.mp hx with ⟨pq, hpq, rfl⟩
    exact h.2 pq hpq

/-- A well-formed raw snapshot side yields a well-formed stored ask side. -/
theorem goodSideAsc_ofPairs {bs : List (ℚ × ℚ)} (h : goodPairsAsc bs) :
    goodSideAsc (bs.map (fun pq => ({ price := pq.1, quantity := pq.2 } : PriceLevel))) := by
  have hpw : (bs.map (fun pq => ({ price := pq.1, quantity := pq.2 } : PriceLevel))).Pairwise
      levelAsc := List.pairwise_map.mpr h.1
  refine ⟨?_, hpw, ?_⟩
  · exact nodup_of_pairwise_price_ne (hpw.imp (fun hlt => ne_of_lt hlt))
  · intro x hx
    rcases List.mem_map.mp hx with ⟨pq, hpq, rfl⟩
    exact h.2 pq hpq

/-- Message processing preserves the order-book invariant: the single-step
core of the C1 induction. -/
theorem goodState_processOrderbookData (md : MarketData) (m : PubMessage)
    (h : goodState md) (hm : goodObMsg m) :
    goodState (Websocket.processOrderbookData md m) := by
  rcases m with ⟨op, topic, type, ts, data⟩
  rcases topic with _ | parts
  · rcases data with _ | pd
    · exact h
    · rcases pd with bars | d | td <;> exact h
  · rcases data with _ | pd
    · exact h
    · rcases pd with bars | d | td
      · exact h
      · -- orderbook payload
        have hm' : (type = some "snapshot" → sideH goodPairsDesc d.b ∧ sideH goodPairsAsc d.a) ∧
            (type = some "delta" → sideH nonnegPairs d.b ∧ sideH nonnegPairs d.a) := hm
        dsimp only [Websocket.processOrderbookData]
        by_cases hsnap : type = some "snapshot"
        · rw [if_pos hsnap]
          rcases hb : d.b with _ | bs
          · rcases ha : d.a with _ | as_ <;> exact h
          · rcases ha : d.a with _ | as_
            · exact h
            · have hside := hm'.1 hsnap
              rw [hb, ha] at hside
              intro pr hpr
              rcases mem_upsertA hpr with rfl | hold
              · exact ⟨goodSideDesc_ofPairs hside.1, goodSideAsc_ofPairs hside.2⟩
              · exact h pr hold
        · rw [if_neg hsnap]
          by_cases hdelta : type = some "delta"
          · rw [if_pos hdelta]
            rcases hlook : lookupA ((parts.get? 2).getD "undefined") md.orderbooks with _ | ob
            · exact h
            · have hob : goodBook ob := h _ (lookupA_mem hlook)
              have hnn := hm'.2 hdelta
              have hbids : goodSideDesc (match d.b with
                  | some bs => if bs.isEmpty then ob.bids else sortBids (applySide ob.bids bs)
                  | none => ob.bids) := by
                rcases hbb : d.b with _ | bs
                · exact hob.1
                · rw [hbb] at hnn
                  dsimp only
                  by_cases hemp : bs.isEmpty
                  · rw [if_pos hemp]
                    exact hob.1
                  · rw [if_neg hemp]
                    exact goodSideDesc_sortBids
                      (levelsOk_applySide ⟨hob.1.1, hob.1.2.2⟩ hnn.1)
              have hasks : goodSideAsc (match d.a with
                  | some as_ => if as_.isEmpty then ob.asks else sortAsks (applySide ob.asks as_)
                  | none => ob.asks) := by
                rcases haa : d.a with _ | as_
                · exact hob.2
                · rw [haa] at hnn
                  dsimp only
                  by_cases hemp : as_.isEmpty
                  · rw [if_pos hemp]
                    exact hob.2
                  · rw [if_neg hemp]
                    exact goodSideAsc_sortAsks
                      (levelsOk_applySide ⟨hob.2.1, hob.2.2.2⟩ hnn.2)
              intro pr hpr
              rcases mem_upsertA hpr with rfl | hold
              · exact ⟨hbids, hasks⟩
              · exact h pr hold
          · rw [if_neg hdelta]
            exact h
      · exact h

/-- Sorting an already strictly descending bid side is the identity. -/
theorem sortBids_eq_of_pairwise {s : List PriceLevel} (h : s.Pairwise levelDesc) :
    sortBids s = s := by
  have : List.Sorted bidGe s := h.imp (fun hlt => le_of_lt hlt)
  exact this.insertionSort_eq

/-- Filtering a strictly descending side keeps it strictly descending. -/
theorem pairwise_levelDesc_filter {s : List PriceLevel} (h : s.Pairwise levelDesc)
    (f : PriceLevel → Bool) : (s.filter f).Pairwise levelDesc :=
  h.sublist (List.filter_sublist s)

/-- With pairwise-distinct prices, filtering away the price of a member
removes exactly one level. -/
theorem filter_ne_price_length {s : List PriceLevel} {p q : ℚ}
    (hnd : (s.map PriceLevel.price).Nodup)
    (hmem : ({ price := p, quantity := q } : PriceLevel) ∈ s) :
    (s.filter (fun l => decide (l.price ≠ p))).length + 1 = s.length := by
  induction s with
  | nil => cases hmem
  | cons a s ih =>
    have hnd2 : (a.price :: s.map PriceLevel.price).Nodup := by
      simpa only [List.map_cons] using hnd
    have hnotin : a.price ∉ s.map PriceLevel.price := (List.nodup_cons.mp hnd2).1
    have hnds : (s.map PriceLevel.price).Nodup := (List.nodup_cons.mp hnd2).2
    rcases List.mem_cons.mp hmem with heq | hmem'
    · have ha : a.price = p := by rw [← heq]
      have hall : ∀ l ∈ s, l.price ≠ p := by
        intro l hl hlp
        exact hnotin (by
          rw [ha, ← hlp]
          exact List.mem_map_of_mem PriceLevel.price hl)
      rw [List.filter_cons_of_neg (by simp [ha])]
      rw [List.filter_eq_self.mpr (by
        intro l hl
        simpa using hall l hl)]
      simp
    · have hap : a.price ≠ p := by
        intro hap
        refine hnotin ?_
        rw [hap]
        exact List.mem_map_of_mem PriceLevel.price hmem'
      rw [List.filter_cons_of_pos (by simp [hap])]
      have := ih hnds hmem'
      simp only [List.length_cons]
      omega

/-- The empty `this.marketData` right after construction. -/
def mdEmpty : MarketData := {}

/-- C1 (amended): for every finite message sequence in which each snapshot
payload is well formed (strictly sorted distinct prices per side, positive
quantities) and each delta carries no negative quantity, every book stored by
`processOrderbookData` after each applied message has no duplicate price on
either side, bids strictly decreasing, asks strictly increasing, and no level
with a non-positive quantity.  Instantiating `msgs` at each prefix of a
sequence gives the invariant after every message. -/
theorem c1_orderbook_invariant (msgs : List PubMessage) (md0 : MarketData)
    (h0 : goodState md0) (hmsgs : ∀ m ∈ msgs, goodObMsg m) :
    goodState (msgs.foldl Websocket.processOrderbookData md0) := by
  induction msgs generalizing md0 with
  | nil => simpa using h0
  | cons m rest ih =>
    simp only [List.foldl_cons]
    exact ih (Websocket.processOrderbookData md0 m)
      (goodState_processOrderbookData md0 m h0 (hmsgs m (List.mem_cons_self _ _)))
      (fun m' hm' => hmsgs m' (List.mem_cons_of_mem _ hm'))

/-- A snapshot message whose bid side carries a zero-quantity level. -/
def c1BadSnapshotMsg : PubMessage :=
  { topic := some ["orderbook", "50", "BTCUSDT"]
    type := some "snapshot"
    data := some (.orderbook { ts := some 1, b := some [(100, 0)], a := some [] }) }

/-- C1 as frozen is false: a snapshot is stored verbatim (no sorting, no
filtering), so a snapshot payload containing a zero-quantity bid leaves the
stored book with a zero-quantity level after an applied message. -/
theorem c1_counterexample :
    Websocket.getOrderbook (Websocket.processOrderbookData mdEmpty c1BadSnapshotMsg) "BTCUSDT" =
      some { symbol := "BTCUSDT", timestamp := some 1,
             bids := [{ price := 100, quantity := 0 }], asks := [] } ∧
    ¬ goodState (Websocket.processOrderbookData mdEmpty c1BadSnapshotMsg) :=
  ⟨by decide, by decide⟩

/-- A well-formed snapshot message. -/
def c1GoodSnapshotMsg : PubMessage :=
  { topic := some ["orderbook", "50", "BTCUSDT"]
    type := some "snapshot"
    data := some (.orderbook
      { ts := some 1, b := some [(100, 3), (98, 1)], a := some [(101, 2), (103, 4)] }) }

/-- A delta message removing one level and upserting others. -/
def c1GoodDeltaMsg : PubMessage :=
  { topic := some ["orderbook", "50", "BTCUSDT"]
    type := some "delta"
    data := some (.orderbook
      { ts := some 2, b := some [(100, 0), (99, 5)], a := some [(101, 7)] }) }

theorem c1_orderbook_invariant_witness :
    goodState mdEmpty ∧ (∀ m ∈ [c1GoodSnapshotMsg, c1GoodDeltaMsg], goodObMsg m) ∧
      goodState ([c1GoodSnapshotMsg, c1GoodDeltaMsg].foldl Websocket.processOrderbookData mdEmpty) := by
  have hmsgs : ∀ m ∈ [c1GoodSnapshotMsg, c1GoodDeltaMsg], goodObMsg m := by
    intro m hm
    rcases List.mem_cons.mp hm with rfl | hm2
    · exact ⟨fun _ => ⟨by decide, by decide⟩, fun hco => absurd hco (by decide)⟩
    · rcases List.mem_cons.mp hm2 with rfl | hm3
      · exact ⟨fun hco => absurd hco (by decide), fun _ => ⟨by decide, by decide⟩⟩
      · cases hm3
  exact ⟨by decide, hmsgs, c1_orderbook_invariant _ _ (by decide) hmsgs⟩

/-- The delta message `{b: [[p, 0]], a: []}` used to exercise C2. -/
def c2DeltaMsg (sym : String) (p tsv : ℚ) : PubMessage :=
  { topic := some ["orderbook", "50", sym]
    type := some "delta"
    data := some (.orderbook { ts := some tsv, b := some [(p, 0)], a := some [] }) }

/-- C2: on a book whose bid side satisfies the §3 invariant (strictly
descending prices) and contains a level at price `p`, the delta
`{b: [[p, 0]], a: []}` removes exactly that level: the surviving bids are
the original list with the price-`p` level filtered out (order, prices and
quantities untouched), the ask side is returned unchanged, and books of
other symbols are untouched. -/
theorem c2_zero_quantity_delta_removes_exactly
    (md : MarketData) (sym : String) (ob : Orderbook) (p q tsv : ℚ)
    (hlook : lookupA sym md.orderbooks = some ob)
    (hchain : ob.bids.Pairwise levelDesc)
    (hmem : ({ price := p, quantity := q } : PriceLevel) ∈ ob.bids) :
    ∃ ob',
      lookupA sym (Websocket.processOrderbookData md (c2DeltaMsg sym p tsv)).orderbooks =
        some ob' ∧
      ob'.asks = ob.asks ∧
      ob'.bids = ob.bids.filter (fun l => decide (l.price ≠ p)) ∧
      ob'.bids.length + 1 = ob.bids.length ∧
      (∀ l ∈ ob.bids, l.price ≠ p → l ∈ ob'.bids) ∧
      (∀ l ∈ ob'.bids, l ∈ ob.bids ∧ l.price ≠ p) ∧
      (∀ s', s' ≠ sym →
        lookupA s' (Websocket.processOrderbookData md (c2DeltaMsg sym p tsv)).orderbooks =
          lookupA s' md.orderbooks) := by
  have hnd : (ob.bids.map PriceLevel.price).Nodup :=
    nodup_of_pairwise_price_ne (hchain.imp (fun hlt => ne_of_gt hlt))
  let ob' : Orderbook :=
    { ob with
      timestamp := some tsv
      bids := sortBids (ob.bids.filter (fun l => decide (l.price ≠ p)))
      asks := ob.asks }
  have hstep : Websocket.processOrderbookData md (c2DeltaMsg sym p tsv) =
      { md with orderbooks := upsertA sym ob' md.orderbooks } := by
    dsimp only [Websocket.processOrderbookData, c2DeltaMsg, List.get?, Option.getD,
      List.isEmpty, applySide, List.foldl, applyLevel]
    rw [if_neg (by decide), if_pos rfl, hlook]
    dsimp only
    rw [if_neg (by decide), if_pos rfl, if_pos rfl]
  have hfilter : sortBids (ob.bids.filter (fun l => decide (l.price ≠ p))) =
      ob.bids.filter (fun l => decide (l.price ≠ p)) :=
    sortBids_eq_of_pairwise (pairwise_levelDesc_filter hchain _)
  have hb : ob'.bids = ob.bids.filter (fun l => decide (l.price ≠ p)) := hfilter
  refine ⟨ob', ?_, rfl, hb, ?_, ?_, ?_, ?_⟩
  · rw [hstep]
    exact lookupA_upsertA_self sym _ md.orderbooks
  · rw [hb]
    exact filter_ne_price_length hnd hmem
  · intro l hl hlp
    rw [hb]
    exact List.mem_filter.mpr ⟨hl, by simpa using hlp⟩
  · intro l hl
    rw [hb] at hl
    have := List.mem_filter.mp hl
    exact ⟨this.1, by simpa using this.2⟩
  · intro s' hs'
    rw [hstep]
    exact lookupA_upsertA_ne sym s' _ md.orderbooks hs'

/-- The concrete book used by the C2 witness. -/
def c2Book : Orderbook :=
  { symbol := "BTCUSDT", timestamp := some 1
    bids := [{ price := 101, quantity := 2 }, { price := 100, quantity := 3 },
             { price := 99, quantity := 4 }]
    asks := [{ price := 102, quantity := 5 }] }

/-- The concrete market data used by the C2 witness. -/
def c2Md : MarketData := { orderbooks := [("BTCUSDT", c2Book)] }

theorem c2_zero_quantity_delta_removes_exactly_witness :
    lookupA "BTCUSDT" c2Md.orderbooks = some c2Book ∧
    c2Book.bids.Pairwise levelDesc ∧
    ({ price := 100, quantity := 3 } : PriceLevel) ∈ c2Book.bids ∧
    ∃ ob',
      lookupA "BTCUSDT"
          (Websocket.processOrderbookData c2Md (c2DeltaMsg "BTCUSDT" 100 9)).orderbooks =
        some ob' ∧
      ob'.asks = c2Book.asks ∧
      ob'.bids = c2Book.bids.filter (fun l => decide (l.price ≠ 100)) ∧
      ob'.bids.length + 1 = c2Book.bids.length ∧
      (∀ l ∈ c2Book.bids, l.price ≠ 100 → l ∈ ob'.bids) ∧
      (∀ l ∈ ob'.bids, l ∈ c2Book.bids ∧ l.price ≠ 100) ∧
      (∀ s', s' ≠ "BTCUSDT" →
        lookupA s'
            (Websocket.processOrderbookData c2Md (c2DeltaMsg "BTCUSDT" 100 9)).orderbooks =
          lookupA s' c2Md.orderbooks) :=
  ⟨by decide, by decide, by decide,
    c2_zero_quantity_delta_removes_exactly c2Md "BTCUSDT" c2Book 100 3 9
      (by decide) (by decide) (by decide)⟩

/-- C4: the reconnect cap is defeated by the counter reset at dial time.
After ten consecutive failed reconnect cycles from the initial state, the
attempt counter is back at `0` (reset by `connectPublicWebSocket`), so an
eleventh reconnect is still scheduled — with the same 7500 ms delay as the
first.  Only without the dial-time reset (third conjunct) would the guard
refuse the eleventh attempt as the spec describes. -/
theorem c4_reconnect_counter_reset_code_bug :
    (Websocket.reconnectPublicWebSocket
        (Nat.iterate Websocket.failedReconnectCycle 10 Websocket.initialReconnectState)).2 =
      some 7500 ∧
    (Nat.iterate Websocket.failedReconnectCycle 10
        Websocket.initialReconnectState).reconnectAttempts = 0 ∧
    (Websocket.reconnectPublicWebSocket
        (Nat.iterate (fun s => (Websocket.reconnectPublicWebSocket s).1) 10
          Websocket.initialReconnectState)).2 = none := by
  refine ⟨?_, by decide, ?_⟩
  · norm_num [Nat.iterate, Websocket.failedReconnectCycle, Websocket.reconnectPublicWebSocket,
      Websocket.connectPublicWebSocket, Websocket.initialReconnectState]
  · norm_num [Nat.iterate, Websocket.reconnectPublicWebSocket,
      Websocket.initialReconnectState]

/-- C7: in the `part_006` reconstructor a delta for a symbol with no stored
book seeds a fresh empty book and applies the delta's levels to it. -/
theorem c7_delta_seeds_book (md : MarketData) (parts : List String) (sym : String)
    (d : ObData) (bs as_ : List (ℚ × ℚ)) (m : PubMessage) (now : ℚ)
    (htopic : m.topic = some parts) (hparts : parts.get? 2 = some sym)
    (hlen : ¬ parts.length < 3)
    (hdata : m.data = some (.orderbook d)) (htype : m.type = some "delta")
    (hb : d.b = some bs) (ha : d.a = some as_)
    (hnone : lookupA sym md.orderbooks = none) :
    lookupA sym (Part006.processOrderbookData md m now).orderbooks =
      some { symbol := sym
             timestamp := some (orD m.ts (orD d.ts now))
             bids := sortBids (applySide [] bs)
             asks := sortAsks (applySide [] as_) } := by
  rcases m with ⟨op, topic, type, ts, data⟩
  dsimp only at htopic hdata htype
  subst htopic
  subst hdata
  subst htype
  dsimp only [Part006.processOrderbookData]
  rw [if_neg hlen, hparts]
  dsimp only [Option.getD]
  rw [if_pos rfl, hnone]
  dsimp only [Option.getD]
  rw [hb, ha]
  dsimp only
  exact lookupA_upsertA_self sym _ md.orderbooks

/-- The delta used by the C7 witness and counterexample. -/
def c7DeltaMsg : PubMessage :=
  { topic := some ["orderbook", "50", "ETHUSDT"]
    type := some "delta"
    ts := some 5
    data := some (.orderbook { ts := some 4, b := some [(100, 2), (99, 1)], a := some [(101, 3)] }) }

theorem c7_delta_seeds_book_witness :
    c7DeltaMsg.topic = some ["orderbook", "50", "ETHUSDT"] ∧
    lookupA "ETHUSDT" mdEmpty.orderbooks = none ∧
    lookupA "ETHUSDT" (Part006.processOrderbookData mdEmpty c7DeltaMsg 7).orderbooks =
      some { symbol := "ETHUSDT"
             timestamp := some (orD c7DeltaMsg.ts (orD (some 4) 7))
             bids := sortBids (applySide [] [(100, 2), (99, 1)])
             asks := sortAsks (applySide [] [(101, 3)]) } :=
  ⟨rfl, rfl,
    c7_delta_seeds_book mdEmpty ["orderbook", "50", "ETHUSDT"] "ETHUSDT"
      { ts := some 4, b := some [(100, 2), (99, 1)], a := some [(101, 3)] }
      [(100, 2), (99, 1)] [(101, 3)] c7DeltaMsg 7
      rfl rfl (by decide) rfl rfl rfl rfl rfl⟩

/-- C7 fails on the `src/api/websocket.js` reconstructor: the same
delta-before-snapshot is warned about and dropped — no book is created. -/
theorem c7_counterexample :
    Websocket.processOrderbookData mdEmpty c7DeltaMsg = mdEmpty ∧
    Websocket.getOrderbook (Websocket.processOrderbookData mdEmpty c7DeltaMsg) "ETHUSDT" =
      none := by
  decide

/-- C9: an unparsable frame, a frame with no `topic`, or a frame with no
`data` leaves the entire market state untouched (and, the handler being a
total function, nothing escapes the dispatcher boundary). -/
theorem c9_malformed_frames_dropped (md : MarketData) (f : Frame) (now : ℚ)
    (h : f = Frame.unparsable ∨
      ∃ m, f = Frame.parsed m ∧ (m.topic = none ∨ m.data = none)) :
    Websocket.handlePublicMessage md f now = md := by
  rcases h with rfl | ⟨m, rfl, hm⟩
  · rfl
  · rcases m with ⟨op, topic, type, ts, data⟩
    dsimp only at hm
    dsimp only [Websocket.handlePublicMessage]
    by_cases hop : op = some "pong"
    · rw [if_pos hop]
    · rw [if_neg hop]
      by_cases hop2 : op = some "subscribe"
      · rw [if_pos hop2]
      · rw [if_neg hop2]
        rcases hm with htop | hdat
        · subst htop
          rfl
        · subst hdat
          cases topic <;> rfl

/-- A pre-existing stored ticker used by the C9 witness. -/
def c9Ticker : Ticker :=
  { symbol := "BTCUSDT"
    lastPrice := some 50
    highPrice24h := some 60
    lowPrice24h := some 40
    volume24h := some 1000
    turnover24h := some 2000
    price24hPcnt := some 1
    timestamp := 3
    bidPrice := none
    askPrice := none
    bidSize := none
    askSize := none }

/-- Market data with pre-existing per-symbol state for the C9 witness. -/
def c9Md : MarketData := { tickers := [("BTCUSDT", c9Ticker)] }

/-- A frame parsed successfully but missing its `topic` property. -/
def c9BadFrame : Frame :=
  Frame.parsed { type := some "snapshot", data := some (.kline []) }

theorem c9_malformed_frames_dropped_witness :
    (c9BadFrame = Frame.unparsable ∨
      ∃ m, c9BadFrame = Frame.parsed m ∧ (m.topic = none ∨ m.data = none)) ∧
    Websocket.handlePublicMessage c9Md c9BadFrame 9 = c9Md :=
  ⟨Or.inr ⟨_, rfl, Or.inl rfl⟩,
    c9_malformed_frames_dropped c9Md c9BadFrame 9 (Or.inr ⟨_, rfl, Or.inl rfl⟩)⟩

/-- C10: for a symbol (and timeframe) with nothing stored, `getKlines`
returns the empty array while `getOrderbook` and `getTicker` return `null`
(`none`); all three are read-only functions of the state. -/
theorem c10_accessor_defaults (md : MarketData) (sym tf : String)
    (hk : (lookupA sym md.klines).bind (lookupA tf) = none)
    (hob : lookupA sym md.orderbooks = none)
    (ht : lookupA sym md.tickers = none) :
    Websocket.getKlines md sym tf = [] ∧
    Websocket.getOrderbook md sym = none ∧
    Websocket.getTicker md sym = none := by
  refine ⟨?_, hob, ht⟩
  unfold Websocket.getKlines
  rcases hs : lookupA sym md.klines with _ | byTf
  · rfl
  · rw [hs] at hk
    dsimp only [Option.bind] at hk
    dsimp only
    rw [hk]

/-- Market data holding state only for other symbols/timeframes, for the C10
witness. -/
def c10Md : MarketData :=
  { klines := [("BTCUSDT", [("1", [])])]
    orderbooks := [("BTCUSDT", { symbol := "BTCUSDT", timestamp := some 1, bids := [], asks := [] })]
    tickers := [("BTCUSDT", c9Ticker)] }

theorem c10_accessor_defaults_witness :
    (lookupA "ETHUSDT" c10Md.klines).bind (lookupA "5") = none ∧
    lookupA "ETHUSDT" c10Md.orderbooks = none ∧
    lookupA "ETHUSDT" c10Md.tickers = none ∧
    (Websocket.getKlines c10Md "ETHUSDT" "5" = [] ∧
      Websocket.getOrderbook c10Md "ETHUSDT" = none ∧
      Websocket.getTicker c10Md "ETHUSDT" = none) :=
  ⟨by decide, by decide, by decide,
    c10_accessor_defaults c10Md "ETHUSDT" "5" (by decide) (by decide) (by decide)⟩

/-- C5 (amended): in the merging revision (`part_006`), every stored field
other than `lastPrice` and the always-refreshed timestamp retains its
previous value when absent from the update (a partial update never resets
the record), present fields overwrite field-by-field, `lastPrice` is
retained when the update carries no price field at all, and the existing
record — or a fresh default when none exists — is the merge base. -/
theorem c5_ticker_merge_frame (md : MarketData) (m : PubMessage) (parts : List String)
    (sym : String) (d : TickerData) (now : ℚ)
    (htopic : m.topic = some parts) (hparts : parts.get? 1 = some sym)
    (hlen : ¬ parts.length < 2) (hdata : m.data = some (.ticker d)) :
    ∃ t1, lookupA sym (Part006.processTickerData md m now).tickers = some t1 ∧
      (∀ ex0, ex0 = (lookupA sym md.tickers).getD (Part006.defaultTicker sym now) →
        (d.highPrice24h = none → t1.highPrice24h = ex0.highPrice24h) ∧
        (d.lowPrice24h = none → t1.lowPrice24h = ex0.lowPrice24h) ∧
        (d.volume24h = none → t1.volume24h = ex0.volume24h) ∧
        (d.turnover24h = none → t1.turnover24h = ex0.turnover24h) ∧
        (d.price24hPcnt = none → t1.price24hPcnt = ex0.price24hPcnt) ∧
        (d.bid1Price = none → t1.bidPrice = ex0.bidPrice) ∧
        (d.ask1Price = none → t1.askPrice = ex0.askPrice) ∧
        (d.bid1Size = none → t1.bidSize = ex0.bidSize) ∧
        (d.ask1Size = none → t1.askSize = ex0.askSize) ∧
        (∀ x, d.highPrice24h = some x → t1.highPrice24h = some x) ∧
        (∀ x, d.volume24h = some x → t1.volume24h = some x) ∧
        (d.lastPrice = none → d.bid1Price = none → d.ask1Price = none →
          t1.lastPrice = ex0.lastPrice) ∧
        t1.timestamp = now ∧ t1.symbol = ex0.symbol) ∧
      (∀ s', s' ≠ sym →
        lookupA s' (Part006.processTickerData md m now).tickers = lookupA s' md.tickers) := by
  rcases m with ⟨op, topic, type, ts, data⟩
  dsimp only at htopic hdata
  subst htopic
  subst hdata
  dsimp only [Part006.processTickerData]
  rw [if_neg hlen, hparts]
  dsimp only [Option.getD]
  refine ⟨_, lookupA_upsertA_self sym _ md.tickers, ?_, ?_⟩
  · intro ex0 hex0
    subst hex0
    refine ⟨?_, ?_, ?_, ?_, ?_, ?_, ?_, ?_, ?_, ?_, ?_, ?_, rfl, rfl⟩
    · intro h
      simp [mergeField, h]
    · intro h
      simp [mergeField, h]
    · intro h
      simp [mergeField, h]
    · intro h
      simp [mergeField, h]
    · intro h
      simp [mergeField, h]
    · intro h
      simp [mergeField, h]
    · intro h
      simp [mergeField, h]
    · intro h
      simp [mergeField, h]
    · intro h
      simp [mergeField, h]
    · intro x h
      simp [mergeField, h]
    · intro x h
      simp [mergeField, h]
    · intro h1 h2 h3
      dsimp only
      rw [h1, h2, h3]
  · intro s' hs'
    exact lookupA_upsertA_ne sym s' _ md.tickers hs'

/-- The prior ticker record used by the C5 witness and counterexample. -/
def c5Ticker : Ticker :=
  { symbol := "BTCUSDT"
    lastPrice := some 100
    highPrice24h := some 110
    lowPrice24h := some 90
    volume24h := some 7
    turnover24h := some 8
    price24hPcnt := some 1
    timestamp := 3
    bidPrice := some 99
    askPrice := some 101
    bidSize := some 5
    askSize := some 6 }

/-- Market data with a prior ticker record for C5. -/
def c5Md : MarketData := { tickers := [("BTCUSDT", c5Ticker)] }

/-- A partial ticker update carrying only `volume24h`. -/
def c5VolMsg : PubMessage :=
  { topic := some ["tickers", "BTCUSDT"]
    type := some "snapshot"
    data := some (.ticker { volume24h := some 9 }) }

theorem c5_ticker_merge_frame_witness :
    c5VolMsg.topic = some ["tickers", "BTCUSDT"] ∧
    lookupA "BTCUSDT" c5Md.tickers = some c5Ticker ∧
    ∃ t1, lookupA "BTCUSDT" (Part006.processTickerData c5Md c5VolMsg 42).tickers = some t1 ∧
      t1.highPrice24h = c5Ticker.highPrice24h ∧ t1.volume24h = some 9 ∧
      t1.lastPrice = c5Ticker.lastPrice := by
  obtain ⟨t1, hl, hfields, hframe⟩ :=
    c5_ticker_merge_frame c5Md c5VolMsg ["tickers", "BTCUSDT"] "BTCUSDT"
      { volume24h := some 9 } 42 rfl rfl (by decide) rfl
  have hex : (lookupA "BTCUSDT" c5Md.tickers).getD (Part006.defaultTicker "BTCUSDT" 42) =
      c5Ticker := by decide
  obtain ⟨h1, h2, h3, h4, h5, h6, h7, h8, h9, h10, h11, h12, h13, h14⟩ :=
    hfields _ rfl
  refine ⟨rfl, rfl, t1, hl, ?_, h11 9 rfl, ?_⟩
  · rw [h1 rfl, hex]
  · rw [h12 rfl rfl rfl, hex]

/-- The midpoint update used to refute C5 as frozen. -/
def c5MidMsg : PubMessage :=
  { topic := some ["tickers", "BTCUSDT"]
    type := some "snapshot"
    data := some (.ticker { bid1Price := some 50, ask1Price := some 52 }) }

/-- C5 as frozen is false even for the merging revision: an update whose
field set does not contain `lastPrice` (only `bid1Price`/`ask1Price`) still
overwrites the stored `lastPrice` with the bid/ask midpoint. -/
theorem c5_counterexample :
    ∃ t1, lookupA "BTCUSDT" (Part006.processTickerData c5Md c5MidMsg 42).tickers = some t1 ∧
      lookupA "BTCUSDT" c5Md.tickers = some c5Ticker ∧
      c5Ticker.lastPrice = some 100 ∧
      t1.lastPrice = some 51 ∧
      t1.lastPrice ≠ c5Ticker.lastPrice := by
  refine ⟨_, rfl, rfl, rfl, ?_, ?_⟩
  · show some ((50 + 52) / 2 : ℚ) = some 51
    norm_num
  · show some ((50 + 52) / 2 : ℚ) ≠ some 100
    norm_num

/-- C6 (amended, `part_005` revision): when the explicit last-trade price is
present it wins; otherwise the midpoint of both sides, else the single
present side; an update with no usable price field is rejected with the
whole market state untouched.  In every accepted case `volume24h` is stored
as the update's value or the default `0`, never undefined. -/
theorem c6_lastPrice_precedence (md : MarketData) (m : PubMessage) (parts : List String)
    (sym : String) (d : TickerData) (now : ℚ)
    (htopic : m.topic = some parts) (hparts : parts.get? 1 = some sym)
    (hlen : ¬ parts.length < 2) (hdata : m.data = some (.ticker d)) :
    (∀ p, d.lastPrice = some p →
      ∃ t, lookupA sym (Part005.processTickerData md m now).tickers = some t ∧
        t.lastPrice = some p ∧ t.volume24h = some (d.volume24h.getD 0)) ∧
    (∀ b a, d.lastPrice = none → d.bid1Price = some b → d.ask1Price = some a →
      ∃ t, lookupA sym (Part005.processTickerData md m now).tickers = some t ∧
        t.lastPrice = some ((b + a) / 2) ∧ t.volume24h = some (d.volume24h.getD 0)) ∧
    (∀ b, d.lastPrice = none → d.bid1Price = some b → d.ask1Price = none →
      ∃ t, lookupA sym (Part005.processTickerData md m now).tickers = some t ∧
        t.lastPrice = some b ∧ t.volume24h = some (d.volume24h.getD 0)) ∧
    (∀ a, d.lastPrice = none → d.bid1Price = none → d.ask1Price = some a →
      ∃ t, lookupA sym (Part005.processTickerData md m now).tickers = some t ∧
        t.lastPrice = some a ∧ t.volume24h = some (d.volume24h.getD 0)) ∧
    (d.lastPrice = none → d.bid1Price = none → d.ask1Price = none →
      Part005.processTickerData md m now = md) := by
  rcases m with ⟨op, topic, type, ts, data⟩
  dsimp only at htopic hdata
  subst htopic
  subst hdata
  refine ⟨?_, ?_, ?_, ?_, ?_⟩
  · intro p hp
    dsimp only [Part005.processTickerData]
    rw [if_neg hlen, hparts, hp]
    dsimp only [Option.getD]
    exact ⟨_, lookupA_upsertA_self sym _ md.tickers, rfl, rfl⟩
  · intro b a h1 h2 h3
    dsimp only [Part005.processTickerData]
    rw [if_neg hlen, hparts, h1, h2, h3]
    dsimp only [Option.getD]
    exact ⟨_, lookupA_upsertA_self sym _ md.tickers, rfl, rfl⟩
  · intro b h1 h2 h3
    dsimp only [Part005.processTickerData]
    rw [if_neg hlen, hparts, h1, h2, h3]
    dsimp only [Option.getD]
    exact ⟨_, lookupA_upsertA_self sym _ md.tickers, rfl, rfl⟩
  · intro a h1 h2 h3
    dsimp only [Part005.processTickerData]
    rw [if_neg hlen, hparts, h1, h2, h3]
    dsimp only [Option.getD]
    exact ⟨_, lookupA_upsertA_self sym _ md.tickers, rfl, rfl⟩
  · intro h1 h2 h3
    dsimp only [Part005.processTickerData]
    rw [if_neg hlen, h1, h2, h3]

/-- The spec's concrete example: only best bid and ask, no prior state. -/
def c6MidMsg : PubMessage :=
  { topic := some ["tickers", "SOLUSDT"]
    type := some "snapshot"
    data := some (.ticker { bid1Price := some 50, ask1Price := some 52 }) }

theorem c6_lastPrice_precedence_witness :
    ∃ t, lookupA "SOLUSDT" (Part005.processTickerData mdEmpty c6MidMsg 11).tickers = some t ∧
      t.lastPrice = some 51 ∧ t.volume24h = some 0 := by
  obtain ⟨t, hl, hlp, hv⟩ :=
    (c6_lastPrice_precedence mdEmpty c6MidMsg ["tickers", "SOLUSDT"] "SOLUSDT"
      { bid1Price := some 50, ask1Price := some 52 } 11 rfl rfl (by decide) rfl).2.1
      50 52 rfl rfl rfl
  refine ⟨t, hl, ?_, hv⟩
  rw [hlp]
  norm_num

/-- A prior record and a priceless update for the C6 counterexample. -/
def c6Md : MarketData := { tickers := [("ADAUSDT", c9Ticker)] }

/-- An update carrying only `volume24h` — no usable price field. -/
def c6VolOnlyMsg : PubMessage :=
  { topic := some ["tickers", "ADAUSDT"]
    type := some "snapshot"
    data := some (.ticker { volume24h := some 9 }) }

/-- C6 as frozen is false for the merging revision (`part_006`): an update
with no usable price field is not rejected — its non-price fields are merged
and the stored record changes. -/
theorem c6_counterexample :
    Part006.processTickerData c6Md c6VolOnlyMsg 77 ≠ c6Md ∧
    ∃ t1, lookupA "ADAUSDT" (Part006.processTickerData c6Md c6VolOnlyMsg 77).tickers = some t1 ∧
      t1.volume24h = some 9 ∧ t1 ≠ c9Ticker := by
  refine ⟨by decide, _, rfl, by decide, by decide⟩

/-! ### Kline series lemmas (C3) -/

/-- One delta bar applied to one series at cap `cap`: overwrite in place if a
bar with the same timestamp exists, else append and re-sort; then truncate
to the last `cap` bars.  This is the series-level core of
`Websocket.processKlineData`'s delta branch (`cap = 500`). -/
def stepK (s : List CandleBar) (fk : CandleBar) : List CandleBar :=
  truncSeries 500 (match replaceBar fk s with
    | some r => r
    | none => sortTs (s ++ [fk]))

/-- Strict ascending-timestamp-key order on stored bars. -/
def tsLt (x y : CandleBar) : Prop := tsKey x < tsKey y

instance : DecidableRel tsLt := fun x y => inferInstanceAs (Decidable (tsKey x < tsKey y))

theorem replaceBar_eq_none {fk : CandleBar} : ∀ {s : List CandleBar},
    (∀ b ∈ s, b.timestamp ≠ fk.timestamp) → replaceBar fk s = none
  | [], _ => rfl
  | b :: bs, h => by
    unfold replaceBar
    rw [if_neg (h b (List.mem_cons_self _ _))]
    rw [replaceBar_eq_none (fun x hx => h x (List.mem_cons_of_mem _ hx))]
    rfl

theorem replaceBar_some_of_mem {fk : CandleBar} {s : List CandleBar}
    (h : ∃ b ∈ s, b.timestamp = fk.timestamp) :
    ∃ l1 b l2, s = l1 ++ b :: l2 ∧ (∀ x ∈ l1, x.timestamp ≠ fk.timestamp) ∧
      b.timestamp = fk.timestamp ∧ replaceBar fk s = some (l1 ++ fk :: l2) := by
  induction s with
  | nil =>
    rcases h with ⟨b, hb, _⟩
    cases hb
  | cons a s ih =>
    by_cases ha : a.timestamp = fk.timestamp
    · refine ⟨[], a, s, rfl, by simp, ha, ?_⟩
      unfold replaceBar
      rw [if_pos ha]
      rfl
    · rcases h with ⟨b, hb, hbts⟩
      rcases List.mem_cons.mp hb with rfl | hbs
      · exact absurd hbts ha
      · rcases ih ⟨b, hbs, hbts⟩ with ⟨l1, b', l2, hs, hl1, hb', hr⟩
        refine ⟨a :: l1, b', l2, by rw [hs]; rfl, ?_, hb', ?_⟩
        · intro x hx
          rcases List.mem_cons.mp hx with rfl | hx'
          · exact ha
          · exact hl1 x hx'
        · unfold replaceBar
          rw [if_neg ha, hr]
          rfl

theorem truncSeries_eq_of_le {cap : Nat} {s : List CandleBar} (h : s.length ≤ cap) :
    truncSeries cap s = s := by
  unfold truncSeries
  rw [if_neg (by omega)]

theorem truncSeries_eq_drop {cap : Nat} {s : List CandleBar} :
    truncSeries cap s = s.drop (s.length - cap) := by
  unfold truncSeries
  split_ifs with h
  · rfl
  · have hz : s.length - cap = 0 := by omega
    rw [hz, List.drop_zero]

theorem klinesOf_setKlines_self (md : MarketData) (sym tf : String) (s : List CandleBar) :
    klinesOf (setKlines md sym tf s) sym tf = s := by
  unfold klinesOf setKlines
  dsimp only
  rw [lookupA_upsertA_self]
  dsimp only
  rw [lookupA_upsertA_self]
  rfl

/-- Extraction: on a well-formed single-bar delta message, `processKlineData`
stores exactly `stepK` of the previous series. -/
theorem processKlineData_delta_eq (md : MarketData) (m : PubMessage) (parts : List String)
    (tf sym : String) (k : RawKline) (htopic : m.topic = some parts)
    (h1 : parts.get? 1 = some tf) (h2 : parts.get? 2 = some sym)
    (hdata : m.data = some (.kline [k])) (htype : m.type = some "delta") :
    Websocket.processKlineData md m =
      setKlines md sym tf (stepK (klinesOf md sym tf) (Websocket.formatKlineWs k)) := by
  rcases m with ⟨op, topic, type, ts, data⟩
  dsimp only at htopic hdata htype
  subst htopic
  subst hdata
  subst htype
  dsimp only [Websocket.processKlineData]
  rw [if_pos rfl, h1, h2]
  dsimp only [Option.getD, List.head?]
  rfl

/-- Sorting an already pairwise-ascending series is the identity. -/
theorem sortTs_eq_of_pairwise {s : List CandleBar} (h : s.Pairwise tsLe) : sortTs s = s :=
  List.Sorted.insertionSort_eq h

/-- The truncation window commutes with appending one newest bar. -/
theorem truncSeries_drop_snoc (cap : Nat) (hcap : 0 < cap) (bs : List CandleBar)
    (b : CandleBar) :
    truncSeries cap (bs.drop (bs.length - cap) ++ [b]) =
      (bs ++ [b]).drop ((bs ++ [b]).length - cap) := by
  rw [truncSeries_eq_drop]
  rcases le_or_lt bs.length cap with hle | hlt
  · have h0 : bs.length - cap = 0 := Nat.sub_eq_zero_of_le hle
    rw [h0, List.drop_zero]
  · have hS : (bs.drop (bs.length - cap)).length = cap := by
      rw [List.length_drop]
      omega
    rw [List.length_append, hS]
    have h1 : cap + [b].length - cap = 1 := by simp
    rw [h1]
    have hd1 : (bs.drop (bs.length - cap) ++ [b]).drop 1 =
        (bs.drop (bs.length - cap)).drop 1 ++ [b] :=
      List.drop_append_of_le_length (by omega)
    rw [hd1, List.drop_drop]
    have hd2 : (bs ++ [b]).drop ((bs ++ [b]).length - cap) =
        bs.drop ((bs ++ [b]).length - cap) ++ [b] := by
      refine List.drop_append_of_le_length ?_
      rw [List.length_append]
      simp only [List.length_singleton]
      omega
    rw [hd2]
    have harith : bs.length - cap + 1 = (bs ++ [b]).length - cap := by
      rw [List.length_append]
      simp only [List.length_singleton]
      omega
    rw [harith]

/-- Folding strictly newer bars through `stepK` from the empty series keeps
exactly the most recent 500 of them, in order. -/
theorem c3aux_fold (fks : List CandleBar)
    (hinc : (fks.map tsKey).Pairwise (fun a b : ℚ => a < b)) :
    fks.foldl stepK [] = fks.drop (fks.length - 500) := by
  induction fks using List.reverseRecOn with
  | nil => simp
  | append_singleton bs b ih =>
    have hmap : (bs ++ [b]).map tsKey = bs.map tsKey ++ [tsKey b] := by
      rw [List.map_append]
      rfl
    rw [hmap] at hinc
    rcases List.pairwise_append.mp hinc with ⟨hp1, _, hcross⟩
    have hbs : bs.Pairwise (fun x y => tsKey x < tsKey y) := List.pairwise_map.mp hp1
    have hlt : ∀ x ∈ bs, tsKey x < tsKey b := by
      intro x hx
      exact hcross (tsKey x) (List.mem_map_of_mem tsKey hx) (tsKey b) (List.mem_cons_self _ _)
    rw [List.foldl_append, ih hp1]
    set S := bs.drop (bs.length - 500) with hSdef
    have hSsub : ∀ x ∈ S, x ∈ bs := fun x hx => List.drop_subset _ bs hx
    have hnone : ∀ x ∈ S, x.timestamp ≠ b.timestamp := by
      intro x hx heq
      have : tsKey x = tsKey b := by rw [tsKey, tsKey, heq]
      exact absurd (hlt x (hSsub x hx)) (by rw [this]; exact lt_irrefl _)
    have hSpw : S.Pairwise tsLe := by
      have : S.Pairwise (fun x y => tsKey x < tsKey y) :=
        hbs.sublist (List.drop_sublist _ _)
      exact this.imp (fun h => le_of_lt h)
    have hsorted : (S ++ [b]).Pairwise tsLe := by
      refine List.pairwise_append.mpr ⟨hSpw, List.pairwise_singleton _ _, ?_⟩
      intro x hx y hy
      rcases List.mem_singleton.mp hy with rfl
      exact le_of_lt (hlt x (hSsub x hx))
    simp only [List.foldl_cons, List.foldl_nil]
    unfold stepK
    rw [replaceBar_eq_none hnone]
    dsimp only
    rw [sortTs_eq_of_pairwise hsorted]
    exact truncSeries_drop_snoc 500 (by omega) bs b

/-- A single-bar kline delta message, as the exchange sends for topic
`kline.{timeframe}.{symbol}`. -/
def mkKlineDeltaMsg (sym tf : String) (k : RawKline) : PubMessage :=
  { topic := some ["kline", tf, sym]
    type := some "delta"
    data := some (.kline [k]) }

/-- The ascending sort key of a raw payload bar. -/
def startKey (k : RawKline) : ℚ := k.start.getD 0

theorem c3aux_lift (sym tf : String) (bars : List RawKline) (md : MarketData) :
    klinesOf ((bars.map (mkKlineDeltaMsg sym tf)).foldl Websocket.processKlineData md) sym tf =
      (bars.map Websocket.formatKlineWs).foldl stepK (klinesOf md sym tf) := by
  induction bars generalizing md with
  | nil => simp
  | cons k rest ih =>
    simp only [List.map_cons, List.foldl_cons]
    rw [processKlineData_delta_eq md (mkKlineDeltaMsg sym tf k) ["kline", tf, sym] tf sym k
      rfl rfl rfl rfl rfl]
    rw [ih, klinesOf_setKlines_self]

/-- C3: (i) a delta whose bar timestamp matches an existing bar overwrites
that bar in place, leaving the series length unchanged; (ii) a delta with a
fresh timestamp appends the bar and re-sorts ascending (then truncates to
the cap `maxKlines = 500`), the stored series staying sorted; (iii) feeding
more distinct-ascending-timestamp delta bars than the cap through
`processKlineData` leaves exactly the most recent 500 bars, in ascending
order.  The length bound in (i) is the reachable-series invariant (every
stored series has length ≤ 500). -/
theorem c3_kline_delta_overwrite_append_cap :
    (∀ md (m : PubMessage) parts tf sym (k : RawKline),
      m.topic = some parts → parts.get? 1 = some tf → parts.get? 2 = some sym →
      m.data = some (.kline [k]) → m.type = some "delta" →
      (klinesOf md sym tf).length ≤ 500 →
      (∃ b ∈ klinesOf md sym tf, b.timestamp = (Websocket.formatKlineWs k).timestamp) →
      ∃ l1 b l2, klinesOf md sym tf = l1 ++ b :: l2 ∧
        b.timestamp = (Websocket.formatKlineWs k).timestamp ∧
        (∀ x ∈ l1, x.timestamp ≠ (Websocket.formatKlineWs k).timestamp) ∧
        klinesOf (Websocket.processKlineData md m) sym tf =
          l1 ++ Websocket.formatKlineWs k :: l2 ∧
        (klinesOf (Websocket.processKlineData md m) sym tf).length =
          (klinesOf md sym tf).length) ∧
    (∀ md (m : PubMessage) parts tf sym (k : RawKline),
      m.topic = some parts → parts.get? 1 = some tf → parts.get? 2 = some sym →
      m.data = some (.kline [k]) → m.type = some "delta" →
      (∀ b ∈ klinesOf md sym tf, b.timestamp ≠ (Websocket.formatKlineWs k).timestamp) →
      klinesOf (Websocket.processKlineData md m) sym tf =
        truncSeries 500 (sortTs (klinesOf md sym tf ++ [Websocket.formatKlineWs k])) ∧
      (klinesOf (Websocket.processKlineData md m) sym tf).Pairwise tsLe) ∧
    (∀ sym tf (bars : List RawKline),
      (∀ k ∈ bars, k.start.isSome) →
      ((bars.map startKey).Pairwise (fun a b : ℚ => a < b)) →
      500 < bars.length →
      klinesOf ((bars.map (mkKlineDeltaMsg sym tf)).foldl Websocket.processKlineData mdEmpty)
          sym tf =
        (bars.map Websocket.formatKlineWs).drop (bars.length - 500) ∧
      (klinesOf ((bars.map (mkKlineDeltaMsg sym tf)).foldl Websocket.processKlineData mdEmpty)
          sym tf).length = 500 ∧
      (klinesOf ((bars.map (mkKlineDeltaMsg sym tf)).foldl Websocket.processKlineData mdEmpty)
          sym tf).Pairwise tsLt) := by
  refine ⟨?_, ?_, ?_⟩
  · intro md m parts tf sym k htopic h1 h2 hdata htype hlen hex
    obtain ⟨l1, b, l2, hs, hl1, hb, hr⟩ := replaceBar_some_of_mem hex
    have heq : klinesOf (Websocket.processKlineData md m) sym tf =
        truncSeries 500 (l1 ++ Websocket.formatKlineWs k :: l2) := by
      rw [processKlineData_delta_eq md m parts tf sym k htopic h1 h2 hdata htype,
        klinesOf_setKlines_self]
      unfold stepK
      rw [hr]
    have hlen2 : (l1 ++ Websocket.formatKlineWs k :: l2).length =
        (klinesOf md sym tf).length := by
      rw [hs]
      simp
    have htr : truncSeries 500 (l1 ++ Websocket.formatKlineWs k :: l2) =
        l1 ++ Websocket.formatKlineWs k :: l2 :=
      truncSeries_eq_of_le (by omega)
    exact ⟨l1, b, l2, hs, hb, hl1, by rw [heq, htr], by rw [heq, htr, hlen2]⟩
  · intro md m parts tf sym k htopic h1 h2 hdata htype hnone
    have heq : klinesOf (Websocket.processKlineData md m) sym tf =
        truncSeries 500 (sortTs (klinesOf md sym tf ++ [Websocket.formatKlineWs k])) := by
      rw [processKlineData_delta_eq md m parts tf sym k htopic h1 h2 hdata htype,
        klinesOf_setKlines_self]
      unfold stepK
      rw [replaceBar_eq_none hnone]
    refine ⟨heq, ?_⟩
    rw [heq, truncSeries_eq_drop]
    have hsorted : (sortTs (klinesOf md sym tf ++ [Websocket.formatKlineWs k])).Pairwise tsLe :=
      List.sorted_insertionSort tsLe _
    exact hsorted.sublist (List.drop_sublist _ _)
  · intro sym tf bars hts hinc hlen
    have hmap : ((bars.map Websocket.formatKlineWs).map tsKey).Pairwise
        (fun a b : ℚ => a < b) := by
      rw [List.map_map]
      exact hinc
    have hfold := c3aux_fold (bars.map Websocket.formatKlineWs) hmap
    have heq : klinesOf
        ((bars.map (mkKlineDeltaMsg sym tf)).foldl Websocket.processKlineData mdEmpty) sym tf =
        (bars.map Websocket.formatKlineWs).drop (bars.length - 500) := by
      rw [c3aux_lift]
      have h0 : klinesOf mdEmpty sym tf = [] := rfl
      rw [h0, hfold, List.length_map]
    refine ⟨heq, ?_, ?_⟩
    · rw [heq, List.length_drop, List.length_map]
      omega
    · rw [heq]
      have hpw : (bars.map Websocket.formatKlineWs).Pairwise
          (fun x y : CandleBar => tsKey x < tsKey y) := List.pairwise_map.mp hmap
      exact hpw.sublist (List.drop_sublist _ _)

/-- A stored bar at timestamp 1 for the C3 witness. -/
def c3Bar1 : CandleBar :=
  { timestamp := some 1, openPrice := some 10, high := some 12, low := some 9
    close := some 11, volume := some 100, turnover := some 5 }

/-- Market data holding one bar at (BTCUSDT, 1m) for the C3 witness. -/
def c3Md : MarketData := { klines := [("BTCUSDT", [("1", [c3Bar1])])] }

/-- A delta bar at the existing timestamp 1 (overwrite case). -/
def c3K2 : RawKline :=
  { start := some 1, openF := some 10, high := some 13, low := some 9
    close := some 12, volume := some 150, turnover := some 6 }

/-- A delta bar at the fresh timestamp 2 (append case). -/
def c3K3 : RawKline :=
  { start := some 2, openF := some 12, high := some 14, low := some 11
    close := some 13, volume := some 80, turnover := some 4 }

/-- The `i`-th synthetic bar for the cap fold of the C3 witness. -/
def c3mkRaw (i : Nat) : RawKline :=
  { start := some (i : ℚ), openF := some 1, high := some 1, low := some 1
    close := some 1, volume := some 1, turnover := some 1 }

/-- 501 distinct-ascending-timestamp bars — one more than the cap. -/
def c3RangeBars : List RawKline := (List.range 501).map c3mkRaw

theorem c3_kline_delta_overwrite_append_cap_witness :
    ((klinesOf c3Md "BTCUSDT" "1").length ≤ 500 ∧
      (∃ b ∈ klinesOf c3Md "BTCUSDT" "1",
        b.timestamp = (Websocket.formatKlineWs c3K2).timestamp) ∧
      ∃ l1 b l2, klinesOf c3Md "BTCUSDT" "1" = l1 ++ b :: l2 ∧
        b.timestamp = (Websocket.formatKlineWs c3K2).timestamp ∧
        (∀ x ∈ l1, x.timestamp ≠ (Websocket.formatKlineWs c3K2).timestamp) ∧
        klinesOf (Websocket.processKlineData c3Md (mkKlineDeltaMsg "BTCUSDT" "1" c3K2))
            "BTCUSDT" "1" = l1 ++ Websocket.formatKlineWs c3K2 :: l2 ∧
        (klinesOf (Websocket.processKlineData c3Md (mkKlineDeltaMsg "BTCUSDT" "1" c3K2))
            "BTCUSDT" "1").length = (klinesOf c3Md "BTCUSDT" "1").length) ∧
    ((∀ b ∈ klinesOf c3Md "BTCUSDT" "1",
        b.timestamp ≠ (Websocket.formatKlineWs c3K3).timestamp) ∧
      klinesOf (Websocket.processKlineData c3Md (mkKlineDeltaMsg "BTCUSDT" "1" c3K3))
          "BTCUSDT" "1" =
        truncSeries 500 (sortTs (klinesOf c3Md "BTCUSDT" "1" ++ [Websocket.formatKlineWs c3K3])) ∧
      (klinesOf (Websocket.processKlineData c3Md (mkKlineDeltaMsg "BTCUSDT" "1" c3K3))
          "BTCUSDT" "1").Pairwise tsLe) ∧
    (500 < c3RangeBars.length ∧
      klinesOf ((c3RangeBars.map (mkKlineDeltaMsg "BTCUSDT" "1")).foldl
          Websocket.processKlineData mdEmpty) "BTCUSDT" "1" =
        (c3RangeBars.map Websocket.formatKlineWs).drop (c3RangeBars.length - 500) ∧
      (klinesOf ((c3RangeBars.map (mkKlineDeltaMsg "BTCUSDT" "1")).foldl
          Websocket.processKlineData mdEmpty) "BTCUSDT" "1").length = 500 ∧
      (klinesOf ((c3RangeBars.map (mkKlineDeltaMsg "BTCUSDT" "1")).foldl
          Websocket.processKlineData mdEmpty) "BTCUSDT" "1").Pairwise tsLt) := by
  have hts : ∀ k ∈ c3RangeBars, k.start.isSome := by
    intro k hk
    rcases List.mem_map.mp hk with ⟨i, _, rfl⟩
    rfl
  have hinc : (c3RangeBars.map startKey).Pairwise (fun a b : ℚ => a < b) := by
    have h1 : (List.range 501).Pairwise (fun a b : Nat => (a : ℚ) < (b : ℚ)) :=
      (List.pairwise_lt_range 501).imp (fun hab => Nat.cast_lt.mpr hab)
    unfold c3RangeBars
    rw [List.map_map]
    exact List.pairwise_map.mpr h1
  have hlen : 500 < c3RangeBars.length := by
    unfold c3RangeBars
    simp
  refine ⟨⟨by decide, by decide, ?_⟩, ⟨by decide, ?_, ?_⟩, hlen, ?_, ?_, ?_⟩
  · exact c3_kline_delta_overwrite_append_cap.1 c3Md (mkKlineDeltaMsg "BTCUSDT" "1" c3K2)
      ["kline", "1", "BTCUSDT"] "1" "BTCUSDT" c3K2 rfl rfl rfl rfl rfl (by decide) (by decide)
  · exact (c3_kline_delta_overwrite_append_cap.2.1 c3Md (mkKlineDeltaMsg "BTCUSDT" "1" c3K3)
      ["kline", "1", "BTCUSDT"] "1" "BTCUSDT" c3K3 rfl rfl rfl rfl rfl (by decide)).1
  · exact (c3_kline_delta_overwrite_append_cap.2.1 c3Md (mkKlineDeltaMsg "BTCUSDT" "1" c3K3)
      ["kline", "1", "BTCUSDT"] "1" "BTCUSDT" c3K3 rfl rfl rfl rfl rfl (by decide)).2
  · exact (c3_kline_delta_overwrite_append_cap.2.2 "BTCUSDT" "1" c3RangeBars hts hinc hlen).1
  · exact (c3_kline_delta_overwrite_append_cap.2.2 "BTCUSDT" "1" c3RangeBars hts hinc hlen).2.1
  · exact (c3_kline_delta_overwrite_append_cap.2.2 "BTCUSDT" "1" c3RangeBars hts hinc hlen).2.2

/-- C8 (amended, `part_005` revision): a kline snapshot replaces the stored
series with exactly the well-formed bars of the payload — a bar missing any
OHLCV field (or a falsy `start`) is dropped, never zero-defaulted — mapped
through the formatter, truncated to the cap when longer.  Under the cap,
every well-formed bar is kept. -/
theorem c8_snapshot_filters_malformed (md : MarketData) (m : PubMessage) (parts : List String)
    (tf sym : String) (bars : List RawKline)
    (htopic : m.topic = some parts) (h1 : parts.get? 1 = some tf)
    (h2 : parts.get? 2 = some sym) (hlen3 : ¬ parts.length < 3)
    (hdata : m.data = some (.kline bars)) (htype : m.type = some "snapshot")
    (hcap : (bars.filter Part005.validKline).length ≤ 500) :
    klinesOf (Part005.processKlineData md m) sym tf =
      (bars.filter Part005.validKline).map Websocket.formatKlineWs ∧
    (klinesOf (Part005.processKlineData md m) sym tf).length =
      (bars.filter Part005.validKline).length ∧
    (∀ k ∈ bars, Part005.validKline k →
      Websocket.formatKlineWs k ∈ klinesOf (Part005.processKlineData md m) sym tf) := by
  rcases m with ⟨op, topic, type, ts, data⟩
  dsimp only at htopic hdata htype
  subst htopic
  subst hdata
  subst htype
  have heq : klinesOf (Part005.processKlineData md
      { op := op, topic := some parts, type := some "snapshot", ts := ts,
        data := some (.kline bars) }) sym tf =
      (bars.filter Part005.validKline).map Websocket.formatKlineWs := by
    dsimp only [Part005.processKlineData]
    rw [if_neg hlen3, h1, h2]
    dsimp only [Option.getD]
    rw [if_neg (fun hc => absurd hc.1 (by decide)), if_pos rfl]
    rw [klinesOf_setKlines_self]
    refine truncSeries_eq_of_le ?_
    rw [List.length_map]
    exact hcap
  refine ⟨heq, ?_, ?_⟩
  · rw [heq, List.length_map]
  · intro k hk hvalid
    rw [heq]
    exact List.mem_map_of_mem _ (List.mem_filter.mpr ⟨hk, hvalid⟩)

/-- A payload bar with every field absent (malformed: no OHLCV). -/
def c8BadBar : RawKline := {}

/-- A well-formed payload bar. -/
def c8GoodBar : RawKline :=
  { start := some 10, openF := some 1, high := some 2, low := some 1
    close := some 2, volume := some 3, turnover := some 1 }

/-- A snapshot whose payload holds one malformed and one well-formed bar. -/
def c8SnapMsg : PubMessage :=
  { topic := some ["kline", "1", "XRPUSDT"]
    type := some "snapshot"
    data := some (.kline [c8BadBar, c8GoodBar]) }

theorem c8_snapshot_filters_malformed_witness :
    ([c8BadBar, c8GoodBar].filter Part005.validKline).length ≤ 500 ∧
    klinesOf (Part005.processKlineData mdEmpty c8SnapMsg) "XRPUSDT" "1" =
      ([c8BadBar, c8GoodBar].filter Part005.validKline).map Websocket.formatKlineWs ∧
    (∀ k ∈ [c8BadBar, c8GoodBar], Part005.validKline k →
      Websocket.formatKlineWs k ∈ klinesOf (Part005.processKlineData mdEmpty c8SnapMsg)
        "XRPUSDT" "1") :=
  ⟨by decide,
    (c8_snapshot_filters_malformed mdEmpty c8SnapMsg ["kline", "1", "XRPUSDT"] "1" "XRPUSDT"
      [c8BadBar, c8GoodBar] rfl rfl rfl (by decide) rfl rfl (by decide)).1,
    (c8_snapshot_filters_malformed mdEmpty c8SnapMsg ["kline", "1", "XRPUSDT"] "1" "XRPUSDT"
      [c8BadBar, c8GoodBar] rfl rfl rfl (by decide) rfl rfl (by decide)).2.2⟩

/-- A snapshot carrying only the malformed bar, for the counterexample. -/
def c8BadSnapMsg : PubMessage :=
  { topic := some ["kline", "1", "XRPUSDT"]
    type := some "snapshot"
    data := some (.kline [c8BadBar]) }

/-- C8 as frozen is false for the `part_006` revision: its `formatKline`
falls back to zero defaults for every missing OHLCV field (and the current
time for the timestamp), and `processKlineData` stores the zero-defaulted
bar instead of dropping it. -/
theorem c8_counterexample :
    klinesOf (Part006.processKlineData mdEmpty c8BadSnapMsg 1000) "XRPUSDT" "1" =
      [{ timestamp := some 1000, openPrice := some 0, high := some 0, low := some 0,
         close := some 0, volume := some 0, turnover := some 0 }] ∧
    Part005.validKline c8BadBar = false := by
  exact ⟨by decide, by decide⟩
